import Mathlib

/-!
# TLTB (trailer lighting test box): relay bank, pulse test, RF command matcher

A shallow embedding of the control core of `src/src/main.cpp`:

* the relay helpers `relayOn`, `relayOff`, `relayOffAll`;
* the pulse test `pulseTestAndEngage`;
* the RF capture `captureRfHashBlocking` and its normalise-and-hash stage;
* the RF command matcher `rfService`;
* the learn wizard `startRfLearn`;
* the over-current block of `loop`;
* the current sample `INA226::currentA`.

Conventions of the embedding.

* The file-scope variables of `main.cpp` are the fields of `State`.  C arrays
  of `R_COUNT` cells are total functions on the index; only the cells
  `0 .. R_COUNT-1` are ever read or written, because every access in the source
  is guarded.
* Every call that reaches the outside world (pin writes, delays, sensor reads,
  the fault popup, the status refresh, writes to the preference store) is
  appended to `State.log` in program order.  TFT drawing is not logged.
* Values read from the outside world (the current sample, the alert line, the
  RF line, the clock, the outcome of an RF capture, the operator's answer to
  the popup) are parameters of the function that reads them.
* `uint32_t` values are naturals; subtraction and multiplication are reduced
  modulo `2^32` where the source can wrap.
* A `float` is represented by the rational number it denotes.  Comparison of
  finite floats is comparison of these rationals; a `float` product is the
  exact product rounded to binary32 (`roundF32`).
* `captureRfHashBlocking` only reads from the outside world (and waits); its
  reads are answered by a `CaptureEnv` and are not logged.
-/

namespace TLTB

/-! ## Pin map and constants -/

def PIN_RLY_LEFT : Int := 11
def PIN_RLY_RIGHT : Int := 12
def PIN_RLY_BRAKE : Int := 13
def PIN_RLY_TAIL : Int := 14
def PIN_RLY_MARKER : Int := 17
def PIN_RLY_AUX : Int := 22
def PIN_BUZZER : Int := 27

/-- Logic level `HIGH` of `digitalWrite` / `digitalRead`. -/
def HIGH : Bool := true
/-- Logic level `LOW` of `digitalWrite` / `digitalRead`. -/
def LOW : Bool := false

/-- The constant `FAST_SHORT_A = 40.0f`. -/
def FAST_SHORT_A : ℚ := 40
/-- The constant `OPEN_THRESH_A = 0.15f`: the binary32 number nearest to 0.15,
which is `10066330 / 2^26`. -/
def OPEN_THRESH_A : ℚ := mkRat 10066330 67108864

def PULSE_MS : Nat := 80
def POST_PULSE_MS : Nat := 40
def DOUBLE_PRESS_MS : Nat := 500

/-! ## Relay identities -/

/-- The C enum `RelayId`; its values are integers, `R_NONE` is `-1`. -/
abbrev RelayId := Int

def R_NONE : RelayId := -1
def R_LEFT : RelayId := 0
def R_RIGHT : RelayId := 1
def R_BRAKE : RelayId := 2
def R_TAIL : RelayId := 3
def R_MARKER : RelayId := 4
def R_AUX : RelayId := 5
def R_COUNT : Int := 6

/-- The table `RELAY_PIN[R_COUNT]`. -/
def RELAY_PIN (r : RelayId) : Int :=
  [PIN_RLY_LEFT, PIN_RLY_RIGHT, PIN_RLY_BRAKE, PIN_RLY_TAIL, PIN_RLY_MARKER, PIN_RLY_AUX].getD
    r.toNat 0

/-- The table `RF_PREF_KEYS[R_COUNT]`. -/
def RF_PREF_KEYS (r : RelayId) : String :=
  ["rf_left", "rf_right", "rf_brake", "rf_tail", "rf_marker", "rf_aux"].getD r.toNat ""

/-- The C enum `FaultType`. -/
inductive FaultType where
  | FAULT_OPEN
  | FAULT_SHORT
  deriving DecidableEq

/-! ## Observable actions and program state -/

/-- One call that reaches the outside world. -/
inductive Event where
  | digitalWrite (pin : Int) (level : Bool)
  | delay (ms : Nat)
  | currentA
  | overCurrent
  | showFaultChoicePopup (ft : FaultType) (r : RelayId)
  | refreshStatusIfChanged
  | putULong (key : String) (value : Nat)
  deriving DecidableEq

/-- The file-scope and function-static variables the control core uses. -/
structure State where
  /-- The array `relayState[R_COUNT]`. -/
  relayState : Int → Bool
  flashMode : Bool
  flashTarget : RelayId
  lastRfRelay : RelayId
  rfEnabled : Bool
  /-- The function-static `last` of `rfService`. -/
  rfLast : Bool
  /-- The function-static `lastPressMs[R_COUNT]` of `rfService`. -/
  lastPressMs : Int → Nat
  /-- The preference store `prefs`, restricted to its `ULong` entries. -/
  prefs : String → Option Nat
  /-- Calls to the outside world so far, oldest first. -/
  log : List Event

/-- The values of the variables after static initialisation, with an empty
preference store. -/
def initState : State where
  relayState := fun _ => false
  flashMode := false
  flashTarget := R_NONE
  lastRfRelay := R_NONE
  rfEnabled := false
  rfLast := HIGH
  lastPressMs := fun _ => 0
  prefs := fun _ => none
  log := []

/-- Append one call to the log. -/
def emit (e : Event) (s : State) : State :=
  { s with log := s.log ++ [e] }

/-- The calls logged between state `s` and a later state `t`. -/
def eventsSince (s t : State) : List Event :=
  t.log.drop s.log.length

/-- The operator's answer to `showFaultChoicePopup`: `true` for PUSH (enable
anyway), `false` for Back (cancel).  The popup blocks until one of the two is
pressed; the answer may depend on everything that has happened so far. -/
abbrev Confirm := FaultType → RelayId → State → Bool

/-! ## Buzzer and relay helpers -/

def buzzerBeep (ms : Nat) (s : State) : State :=
  emit (.digitalWrite PIN_BUZZER LOW) (emit (.delay ms) (emit (.digitalWrite PIN_BUZZER HIGH) s))

def buzzerAlarm (ms : Nat) (s : State) : State :=
  emit (.digitalWrite PIN_BUZZER LOW) (emit (.delay ms) (emit (.digitalWrite PIN_BUZZER HIGH) s))

def relayOn (r : RelayId) (s : State) : State :=
  if 0 ≤ r ∧ r < R_COUNT then
    let s := emit (.digitalWrite (RELAY_PIN r) HIGH) s
    { s with relayState := Function.update s.relayState r true }
  else s

def relayOff (r : RelayId) (s : State) : State :=
  if 0 ≤ r ∧ r < R_COUNT then
    let s := emit (.digitalWrite (RELAY_PIN r) LOW) s
    { s with relayState := Function.update s.relayState r false }
  else s

/-- The loop `for(int i=0;i<R_COUNT;i++) relayOff((RelayId)i)`. -/
def relayOffAll (s : State) : State :=
  (List.range 6).foldl (fun (acc : State) (i : Nat) => relayOff (Int.ofNat i) acc) s

/-- The call `refreshStatusIfChanged()`; it only draws. -/
def refreshStatusIfChanged (s : State) : State :=
  emit .refreshStatusIfChanged s

/-- The call `showFaultChoicePopup(ft, r)`: the answer is taken in the state
of the call, then the call is logged. -/
def showFaultChoicePopup (ask : Confirm) (ft : FaultType) (r : RelayId) (s : State) :
    Bool × State :=
  (ask ft r s, emit (.showFaultChoicePopup ft r) s)

/-! ## Pulse test -/

/-- The function `pulseTestAndEngage(rly)`.  `ia` is the value returned by
`INA226::currentA()`, `oc` the value `INA226::overCurrent()` returns when it is
called (it is called only if `ia >= FAST_SHORT_A` is false). -/
def pulseTestAndEngage (ask : Confirm) (ia : ℚ) (oc : Bool) (rly : RelayId) (s : State) :
    Bool × State :=
  let s := relayOn rly s
  let s := emit (.delay PULSE_MS) s
  let s := emit .currentA s
  let s := emit (.delay POST_PULSE_MS) s
  let fast : Bool := decide (FAST_SHORT_A ≤ ia)
  let s := if fast then s else emit .overCurrent s
  if fast || oc then
    let s := relayOff rly s
    let s := buzzerAlarm 800 s
    let (yes, s) := showFaultChoicePopup ask .FAULT_SHORT rly s
    if yes then
      let s := relayOn rly s
      let s := buzzerBeep 60 s
      (true, refreshStatusIfChanged s)
    else
      (false, refreshStatusIfChanged s)
  else if ia < OPEN_THRESH_A then
    let s := relayOff rly s
    let s := buzzerAlarm 800 s
    let (yes, s) := showFaultChoicePopup ask .FAULT_OPEN rly s
    if yes then
      let s := relayOn rly s
      let s := buzzerBeep 60 s
      (true, refreshStatusIfChanged s)
    else
      (false, refreshStatusIfChanged s)
  else
    let s := buzzerBeep 60 s
    (true, refreshStatusIfChanged s)

/-- The function `currentActiveRelay()`: the first energized channel, or
`R_NONE`. -/
def currentActiveRelay (s : State) : RelayId :=
  match (List.range 6).find? (fun (i : Nat) => s.relayState (Int.ofNat i)) with
  | some i => Int.ofNat i
  | none => R_NONE

/-! ## RF fingerprint: normalise and hash -/

/-- The function `fnv1a(h, x)` on `uint32_t`: `h ^= x; return h * 16777619UL`. -/
def fnv1a (h x : Nat) : Nat :=
  ((h ^^^ x) * 16777619) % 2 ^ 32

/-- The sum `sum += dur[i]` over the recorded durations, in `uint32_t`. -/
def durSum (dur : List Nat) : Nat :=
  dur.foldl (fun acc d => (acc + d) % 2 ^ 32) 0

/-- The threshold `thr` of `captureRfHashBlocking`:
`avg = (uint16_t)(sum / idx); thr = (avg > 400 ? avg : 400)`. -/
def rfThreshold (dur : List Nat) : Nat :=
  let avg := (durSum dur / dur.length) % 2 ^ 16
  if avg > 400 then avg else 400

/-- The bucket of one duration:
`(dur[i] > thr*2) ? 2 : (dur[i] > thr ? 1 : 0)`. -/
def rfBucket (thr d : Nat) : Nat :=
  if d > thr * 2 then 2 else if d > thr then 1 else 0

/-- The hash before the final substitution: the fold of `fnv1a` over the
buckets from the offset basis `2166136261`, then over `idx ^ 0xA5A5A5A5`. -/
def rfRawHash (dur : List Nat) : Nat :=
  let thr := rfThreshold dur
  let h := dur.foldl (fun h d => fnv1a h (rfBucket thr d + 0x9E)) 2166136261
  fnv1a h (dur.length ^^^ 0xA5A5A5A5)

/-- The part of `captureRfHashBlocking` after the recording loop (from
`if (idx < 8) return 0;` to the end), as a function of the recorded cells
`dur[0] .. dur[idx-1]`. -/
def rfHashStage (dur : List Nat) : Nat :=
  if dur.length < 8 then 0
  else
    let h := rfRawHash dur
    if h ≠ 0 then h else 0xFFFFFFFF

/-! ## RF command matcher -/

/-- The call `prefs.getULong(key, def)`. -/
def getULong (prefs : String → Option Nat) (key : String) (dflt : Nat) : Nat :=
  (prefs key).getD dflt

/-- The call `prefs.putULong(key, value)`. -/
def putULong (key : String) (value : Nat) (s : State) : State :=
  let s := emit (.putULong key value) s
  { s with prefs := Function.update s.prefs key (some value) }

/-- The scan of `rfService` over the learned codes: the first channel whose
stored code equals `code`, or `R_NONE`. -/
def rfTarget (prefs : String → Option Nat) (code : Nat) : RelayId :=
  match (List.range 6).find?
      (fun (i : Nat) => decide (code = getULong prefs (RF_PREF_KEYS (Int.ofNat i)) 0)) with
  | some i => Int.ofNat i
  | none => R_NONE

/-- Subtraction of two `uint32_t` values. -/
def sub32 (a b : Nat) : Nat :=
  (a + (2 ^ 32 - b % 2 ^ 32)) % 2 ^ 32

/-- What one call of `rfService` reads from the outside world: the level of the
RF line, the result of `captureRfHashBlocking(200)`, the value of `millis()`,
and the two sensor readings of a pulse test. -/
structure RfInput where
  cur : Bool
  code : Nat
  now : Nat
  ia : ℚ
  oc : Bool

/-- The function `rfService()`. -/
def rfService (ask : Confirm) (inp : RfInput) (s : State) : State :=
  if !s.rfEnabled then s
  else
    let cur := inp.cur
    let s :=
      if s.rfLast = HIGH ∧ cur = LOW then
        let code := inp.code
        if code ≠ 0 then
          let target := rfTarget s.prefs code
          if target ≠ R_NONE then
            let now := inp.now
            let isDouble : Bool := decide (sub32 now (s.lastPressMs target) < DOUBLE_PRESS_MS)
            let s := { s with lastPressMs := Function.update s.lastPressMs target now }
            let s :=
              if isDouble then
                let s := { s with flashMode := !s.flashMode }
                let s := { s with flashTarget := target }
                if !s.flashMode then relayOff s.flashTarget s else s
              else
                let s :=
                  if s.relayState target then buzzerBeep 60 (relayOff target s)
                  else (pulseTestAndEngage ask inp.ia inp.oc target s).2
                let s := { s with lastRfRelay := target }
                { s with flashTarget := target }
            refreshStatusIfChanged s
          else buzzerBeep 30 s
        else s
      else s
    { s with rfLast := cur }

/-! ## Learn wizard -/

/-- The loop of `startRfLearn()`, with `n` iterations left and loop counter
`i`.  `caps i` is what `captureRfHashBlocking(8000)` returns in iteration
`i`. -/
def startRfLearnLoop (caps : Nat → Nat) : Nat → Nat → State → State
  | 0, _, s => emit (.delay 1000) (buzzerBeep 120 s)
  | n + 1, i, s =>
    let code := caps i
    if code = 0 then emit (.delay 1000) s
    else
      let s := putULong (RF_PREF_KEYS (Int.ofNat i)) code s
      let s := buzzerBeep 80 s
      let s := emit (.delay 800) s
      startRfLearnLoop caps n (i + 1) s

/-- The function `startRfLearn()`: the loop runs for `i = 0 .. R_COUNT-1`. -/
def startRfLearn (caps : Nat → Nat) (s : State) : State :=
  startRfLearnLoop caps 6 0 s

/-! ## Over-current block of the main loop -/

/-- The block `if (INA226::overCurrent()) { ... }` of `loop()`; `oc` is what
`INA226::overCurrent()` returns. -/
def loopOverCurrent (oc : Bool) (s : State) : State :=
  let s := emit .overCurrent s
  if oc then
    let s := { s with flashMode := false }
    let _culprit := currentActiveRelay s
    let s := relayOffAll s
    let s := buzzerAlarm 800 s
    refreshStatusIfChanged s
  else s

/-! ## Named intermediate states of the pulse test -/

/-- The state of `pulseTestAndEngage` when the short-circuit condition has been
evaluated: relay on, `PULSE_MS` hold, current sample, `POST_PULSE_MS` hold, and
the read of the alert line if the sample is below `FAST_SHORT_A`. -/
def pulseSampled (ia : ℚ) (rly : RelayId) (s : State) : State :=
  let s := emit (.delay POST_PULSE_MS) (emit .currentA (emit (.delay PULSE_MS) (relayOn rly s)))
  if FAST_SHORT_A ≤ ia then s else emit .overCurrent s

/-- The state of `pulseTestAndEngage` in a fault branch just before the popup
is called: relay switched off again and alarm sounded. -/
def pulseFaultState (ia : ℚ) (rly : RelayId) (s : State) : State :=
  buzzerAlarm 800 (relayOff rly (pulseSampled ia rly s))

/-! ## Observers used in the statements -/

/-- The fault kinds with which the popup was invoked, in order. -/
def popupsOf (evs : List Event) : List FaultType :=
  evs.filterMap fun e =>
    match e with
    | .showFaultChoicePopup ft _ => some ft
    | _ => none

/-- The relay pins driven `HIGH`, in order. -/
def energizedPins (evs : List Event) : List Int :=
  evs.filterMap fun e =>
    match e with
    | .digitalWrite pin true => if pin = PIN_BUZZER then none else some pin
    | _ => none

/-- The relay pins driven `LOW`, in order. -/
def deenergizedPins (evs : List Event) : List Int :=
  evs.filterMap fun e =>
    match e with
    | .digitalWrite pin false => if pin = PIN_BUZZER then none else some pin
    | _ => none

/-- The number of current samples taken. -/
def currentSamples (evs : List Event) : Nat :=
  evs.count .currentA

/-- The writes to the preference store, in order. -/
def putsOf (evs : List Event) : List (String × Nat) :=
  evs.filterMap fun e =>
    match e with
    | .putULong k v => some (k, v)
    | _ => none

/-! ## Vocabulary for the RF command matcher -/

/-- A call of `rfService` is a matched capture on channel `c`: RF is enabled,
the RF line shows a falling edge, the capture returns a non-zero code, and the
scan over the learned codes stops at `c`. -/
def Matched (inp : RfInput) (s : State) (c : RelayId) : Prop :=
  s.rfEnabled = true ∧ s.rfLast = HIGH ∧ inp.cur = LOW ∧ inp.code ≠ 0 ∧
    rfTarget s.prefs inp.code = c ∧ c ≠ R_NONE

/-- The state of `rfService` after `lastPressMs[target] = now`. -/
def pressRecorded (inp : RfInput) (c : RelayId) (s : State) : State :=
  { s with lastPressMs := Function.update s.lastPressMs c inp.now }

/-- The press toggles flash mode. -/
def TogglesFlash (ask : Confirm) (inp : RfInput) (s : State) : Prop :=
  (rfService ask inp s).flashMode = !s.flashMode

/-- The press is handled as a single press on `c`: flash mode keeps its value,
and either `c` was energized and is switched off with a beep (Deactivate), or
`c` was not energized and the relays and the calls are those of
`pulseTestAndEngage(c)` followed by the status refresh (EngageWithTest). -/
def HandledAsSingle (ask : Confirm) (inp : RfInput) (s : State) (c : RelayId) : Prop :=
  (rfService ask inp s).flashMode = s.flashMode ∧
  (s.relayState c = true →
    (rfService ask inp s).relayState = Function.update s.relayState c false ∧
    eventsSince s (rfService ask inp s) =
      [.digitalWrite (RELAY_PIN c) LOW, .digitalWrite PIN_BUZZER HIGH, .delay 60,
        .digitalWrite PIN_BUZZER LOW, .refreshStatusIfChanged]) ∧
  (s.relayState c = false →
    (rfService ask inp s).relayState =
      (pulseTestAndEngage ask inp.ia inp.oc c (pressRecorded inp c s)).2.relayState ∧
    eventsSince s (rfService ask inp s) =
      eventsSince s (pulseTestAndEngage ask inp.ia inp.oc c (pressRecorded inp c s)).2
        ++ [.refreshStatusIfChanged])

/-! ## Concrete scenarios -/

/-- The initial state with RF enabled and one learned code, 42 on TAIL. -/
def tailBound : State :=
  { initState with
    rfEnabled := true
    prefs := fun k => if k = "rf_tail" then some 42 else none }

/-- A capture of code 42 at clock value `t mod 2^32`; a pulse test started by
it samples 1 A with the alert line clear. -/
def pressAt (t : Nat) : RfInput :=
  { cur := LOW, code := 42, now := t % 2 ^ 32, ia := 1, oc := false }

/-- A call of `rfService` with the RF line idle (high). -/
def lineIdle : RfInput :=
  { cur := HIGH, code := 0, now := 0, ia := 0, oc := false }

/-- An operator who always cancels. -/
def askCancel : Confirm := fun _ _ _ => false

/-- Flash mode is active on LEFT, which is energized; TAIL is bound to code 42
and was last pressed at 5000 ms. -/
def flashingLeft : State :=
  { tailBound with
    flashMode := true
    flashTarget := R_LEFT
    relayState := fun i => decide (i = R_LEFT)
    lastPressMs := fun i => if i = R_TAIL then 5000 else 0 }

/-- A capture of a code that no channel of `tailBound` has learned. -/
def pressUnknown : RfInput :=
  { cur := LOW, code := 7, now := 9000, ia := 1, oc := false }

/-- The writes expected of a learn run of `n` steps from channel `i`: one per
capture, up to the first capture that returns 0. -/
def learnedWrites (caps : Nat → Nat) : Nat → Nat → List (String × Nat)
  | 0, _ => []
  | n + 1, i =>
    if caps i = 0 then [] else (RF_PREF_KEYS (Int.ofNat i), caps i) :: learnedWrites caps n (i + 1)

/-- Capture outcomes of a learn run that is cancelled at the third channel. -/
def capsCancelThird (i : Nat) : Nat :=
  if i = 0 then 11 else if i = 1 then 22 else if i = 2 then 0 else 44

/-! ## RF capture -/

/-- The constant `GAP_US` of `captureRfHashBlocking`. -/
def GAP_US : Nat := 8000

/-- What `captureRfHashBlocking` reads from the outside world, call by call:
`millis k` is what the `k`-th call of `millis()` returns (counting from 0),
`micros k` likewise for `micros()`, `rf k` the level the `k`-th
`digitalRead(PIN_CC1101_GDO0)` returns and `ko k` the level the `k`-th
`digitalRead(PIN_ENC_KO)` returns (`LOW` is the pressed Back button). -/
structure CaptureEnv where
  millis : Nat → Nat
  micros : Nat → Nat
  rf : Nat → Bool
  ko : Nat → Bool

/-- How many calls of each kind have been made so far. -/
structure Cursor where
  nMillis : Nat
  nMicros : Nat
  nRf : Nat
  nKo : Nat

/-- The outcome of running a loop for a bounded number of iterations. -/
inductive LoopResult (α : Type) where
  | outOfFuel
  | returned (code : Nat)
  | exited (a : α)

/-- The loop `while (millis() - start < arm_ms) { ... }` of
`captureRfHashBlocking`, for at most `fuel` iterations.  `exited (c, last)` is
the end of the loop, by its condition or by `break`; `returned 0` is the
`return 0` of the cancel poll. -/
def armLoop (env : CaptureEnv) (arm_ms start : Nat) :
    Nat → Cursor → Bool → LoopResult (Cursor × Bool)
  | 0, _, _ => .outOfFuel
  | fuel + 1, c, last =>
    let m := env.millis c.nMillis
    let c := { c with nMillis := c.nMillis + 1 }
    if sub32 m start < arm_ms then
      let cur := env.rf c.nRf
      let c := { c with nRf := c.nRf + 1 }
      if last = HIGH ∧ cur = LOW then .exited (c, last)
      else
        let last := cur
        let k := env.ko c.nKo
        let c := { c with nKo := c.nKo + 1 }
        if k = LOW then .returned 0
        else armLoop env arm_ms start fuel c last
    else .exited (c, last)

/-- The state of the recording loop: calls made, last level seen, `idx`,
`tEdge`, and the buffer `dur`. -/
structure RecState where
  c : Cursor
  last : Bool
  idx : Nat
  tEdge : Nat
  dur : Nat → Nat

/-- The loop `while (idx < 128) { ... }` of `captureRfHashBlocking`, for at
most `fuel` iterations. -/
def recordLoop (env : CaptureEnv) : Nat → RecState → LoopResult RecState
  | 0, _ => .outOfFuel
  | fuel + 1, r =>
    if r.idx < 128 then
      let cur := env.rf r.c.nRf
      let r := { r with c := { r.c with nRf := r.c.nRf + 1 } }
      let r :=
        if cur ≠ r.last then
          let now := env.micros r.c.nMicros
          let d := sub32 now r.tEdge
          { c := { r.c with nMicros := r.c.nMicros + 1 }
            last := cur
            idx := r.idx + 1
            tEdge := now
            dur := Function.update r.dur r.idx (min d 65535) }
        else r
      let g := env.micros r.c.nMicros
      let r := { r with c := { r.c with nMicros := r.c.nMicros + 1 } }
      if sub32 g r.tEdge > GAP_US then .exited r
      else
        let k := env.ko r.c.nKo
        let r := { r with c := { r.c with nKo := r.c.nKo + 1 } }
        if k = LOW then .returned 0
        else recordLoop env fuel r
    else .exited r

/-- The function `captureRfHashBlocking(arm_ms)`.  `stale` is the content of
the static buffer `dur` at the call; each loop is run for at most `fuel`
iterations and the result is `none` if one of them has not ended by then. -/
def captureRfHashBlocking (env : CaptureEnv) (arm_ms : Nat) (stale : Nat → Nat) (fuel : Nat) :
    Option Nat :=
  let start := env.millis 0
  let last := env.rf 0
  match armLoop env arm_ms start fuel { nMillis := 1, nMicros := 0, nRf := 1, nKo := 0 } last with
  | .outOfFuel => none
  | .returned v => some v
  | .exited (c, last) =>
    let m := env.millis c.nMillis
    let c := { c with nMillis := c.nMillis + 1 }
    if sub32 m start ≥ arm_ms then some 0
    else
      let tEdge := env.micros c.nMicros
      let c := { c with nMicros := c.nMicros + 1 }
      match recordLoop env fuel { c := c, last := last, idx := 0, tEdge := tEdge, dur := stale } with
      | .outOfFuel => none
      | .returned v => some v
      | .exited r => some (rfHashStage ((List.range r.idx).map r.dur))

/-- The clock is monotonic over the first `N + 1` calls of `millis()`: the
elapsed time the code computes from its readings, `millis() - start` in
`uint32_t`, never decreases. -/
def ClockMonotone (env : CaptureEnv) (N : Nat) : Prop :=
  ∀ i j, i ≤ j → j ≤ N →
    sub32 (env.millis i) (env.millis 0) ≤ sub32 (env.millis j) (env.millis 0)

/-- No falling edge is seen by the arming loop while the window is open: in
no iteration `j` whose clock reading is within `arm_ms` of the start is the
previous level high and the level just read low. -/
def NoEdgeInWindow (env : CaptureEnv) (arm_ms : Nat) : Prop :=
  ∀ j, sub32 (env.millis (j + 1)) (env.millis 0) < arm_ms →
    ¬ (env.rf j = HIGH ∧ env.rf (j + 1) = LOW)

/-- Back is held down, the RF line alternates on every read, the microsecond
clock advances by 300 per call and the millisecond clock stands still. -/
def backHeldEnv : CaptureEnv :=
  { millis := fun _ => 0
    micros := fun k => 300 * k
    rf := fun k => k % 2 == 0
    ko := fun _ => LOW }

/-- The RF line stays high, Back is not pressed, and the millisecond clock
advances by one per call. -/
def quietEnv : CaptureEnv :=
  { millis := fun k => k
    micros := fun k => k
    rf := fun _ => HIGH
    ko := fun _ => HIGH }

/-! ## Vocabulary for the fingerprint -/

/-- The hash of a bucket sequence, as the second loop of
`captureRfHashBlocking` and the line after it compute it. -/
def hashBuckets (bs : List Nat) : Nat :=
  fnv1a (bs.foldl (fun h b => fnv1a h (b + 0x9E)) 2166136261) (bs.length ^^^ 0xA5A5A5A5)

/-- The bucket sequence of a recorded sequence. -/
def bucketsOf (dur : List Nat) : List Nat :=
  dur.map (rfBucket (rfThreshold dur))

/-- Duration `y` is within ±10% of duration `x`. -/
def Within10 (x y : Nat) : Prop :=
  9 * x ≤ 10 * y ∧ 10 * y ≤ 11 * x

/-- Sequence `b` has the length of `a` and each of its durations is within
±10% of the corresponding duration of `a`. -/
def Jittered (a b : List Nat) : Prop :=
  a.length = b.length ∧ ∀ p ∈ a.zip b, Within10 p.1 p.2

/-- Duration `d` keeps a margin from the thresholds `T` and `2T`: it is
either well below `T`, or well between `T` and `2T`, or well above `2T`. -/
def JitterMargin (T d : Nat) : Prop :=
  11 * d + 9 ≤ 9 * T ∨ (11 * T + 10 < 9 * d ∧ 11 * d + 18 ≤ 18 * T) ∨ 22 * T + 20 < 9 * d

/-! ## Current sensor -/

/-- The constant `CURRENT_LSB_A = 0.001f`: the binary32 number nearest to
0.001, which is `8589935 / 2^33`. -/
def CURRENT_LSB_A : ℚ := mkRat 8589935 8589934592

/-- Rounding of a rational to the nearest integer, ties to the even one. -/
def roundHalfEven (q : ℚ) : ℤ :=
  let f := ⌊q⌋
  let r := q - f
  if r < 1 / 2 then f
  else if 1 / 2 < r then f + 1
  else if f % 2 = 0 then f else f + 1

/-- Rounding of a real result to binary32, round-to-nearest-even: the unit in
the last place of `x` is `2^(e-23)` for `2^e <= |x| < 2^(e+1)`, with `e` not
below -126 (subnormal range).  Overflow to infinity (`|x| >= 2^128`) is not
represented. -/
def roundF32 (x : ℚ) : ℚ :=
  if x = 0 then 0
  else
    let e : ℤ := max (Int.log 2 |x|) (-126)
    let ulp : ℚ := (2 : ℚ) ^ (e - 23)
    (roundHalfEven (x / ulp) : ℚ) * ulp

/-- The function `INA226::currentA()`, as a function of the `int16_t` value
`r` of the current register: the `float` product `r * CURRENT_LSB_A` (the
conversion of `r` to `float` is exact). -/
def currentA (r : Int) : ℚ :=
  roundF32 ((r : ℚ) * CURRENT_LSB_A)

/-! ## Basic facts about the helpers -/

section helpers

@[simp] theorem emit_log (e : Event) (s : State) : (emit e s).log = s.log ++ [e] := rfl
@[simp] theorem emit_relayState (e : Event) (s : State) : (emit e s).relayState = s.relayState := rfl
@[simp] theorem emit_flashMode (e : Event) (s : State) : (emit e s).flashMode = s.flashMode := rfl
@[simp] theorem emit_flashTarget (e : Event) (s : State) : (emit e s).flashTarget = s.flashTarget := rfl
@[simp] theorem emit_lastPressMs (e : Event) (s : State) : (emit e s).lastPressMs = s.lastPressMs := rfl
@[simp] theorem emit_prefs (e : Event) (s : State) : (emit e s).prefs = s.prefs := rfl
@[simp] theorem emit_rfEnabled (e : Event) (s : State) : (emit e s).rfEnabled = s.rfEnabled := rfl
@[simp] theorem emit_rfLast (e : Event) (s : State) : (emit e s).rfLast = s.rfLast := rfl
@[simp] theorem emit_lastRfRelay (e : Event) (s : State) : (emit e s).lastRfRelay = s.lastRfRelay := rfl

theorem eventsSince_append (s t : State) (d : List Event) (h : t.log = s.log ++ d) :
    eventsSince s t = d := by
  simp [eventsSince, h]

@[simp] theorem buzzerBeep_log (ms : Nat) (s : State) :
    (buzzerBeep ms s).log
      = s.log ++ [.digitalWrite PIN_BUZZER HIGH, .delay ms, .digitalWrite PIN_BUZZER LOW] := by
  simp [buzzerBeep]
@[simp] theorem buzzerBeep_relayState (ms : Nat) (s : State) :
    (buzzerBeep ms s).relayState = s.relayState := rfl
@[simp] theorem buzzerBeep_flashMode (ms : Nat) (s : State) :
    (buzzerBeep ms s).flashMode = s.flashMode := rfl
@[simp] theorem buzzerBeep_flashTarget (ms : Nat) (s : State) :
    (buzzerBeep ms s).flashTarget = s.flashTarget := rfl
@[simp] theorem buzzerBeep_lastPressMs (ms : Nat) (s : State) :
    (buzzerBeep ms s).lastPressMs = s.lastPressMs := rfl
@[simp] theorem buzzerBeep_prefs (ms : Nat) (s : State) :
    (buzzerBeep ms s).prefs = s.prefs := rfl
@[simp] theorem buzzerBeep_lastRfRelay (ms : Nat) (s : State) :
    (buzzerBeep ms s).lastRfRelay = s.lastRfRelay := rfl

@[simp] theorem buzzerAlarm_log (ms : Nat) (s : State) :
    (buzzerAlarm ms s).log
      = s.log ++ [.digitalWrite PIN_BUZZER HIGH, .delay ms, .digitalWrite PIN_BUZZER LOW] := by
  simp [buzzerAlarm]
@[simp] theorem buzzerAlarm_relayState (ms : Nat) (s : State) :
    (buzzerAlarm ms s).relayState = s.relayState := rfl
@[simp] theorem buzzerAlarm_flashMode (ms : Nat) (s : State) :
    (buzzerAlarm ms s).flashMode = s.flashMode := rfl
@[simp] theorem buzzerAlarm_flashTarget (ms : Nat) (s : State) :
    (buzzerAlarm ms s).flashTarget = s.flashTarget := rfl
@[simp] theorem buzzerAlarm_lastPressMs (ms : Nat) (s : State) :
    (buzzerAlarm ms s).lastPressMs = s.lastPressMs := rfl
@[simp] theorem buzzerAlarm_prefs (ms : Nat) (s : State) :
    (buzzerAlarm ms s).prefs = s.prefs := rfl

@[simp] theorem refresh_log (s : State) :
    (refreshStatusIfChanged s).log = s.log ++ [.refreshStatusIfChanged] := rfl
@[simp] theorem refresh_relayState (s : State) :
    (refreshStatusIfChanged s).relayState = s.relayState := rfl
@[simp] theorem refresh_flashMode (s : State) :
    (refreshStatusIfChanged s).flashMode = s.flashMode := rfl
@[simp] theorem refresh_flashTarget (s : State) :
    (refreshStatusIfChanged s).flashTarget = s.flashTarget := rfl
@[simp] theorem refresh_lastPressMs (s : State) :
    (refreshStatusIfChanged s).lastPressMs = s.lastPressMs := rfl
@[simp] theorem refresh_prefs (s : State) :
    (refreshStatusIfChanged s).prefs = s.prefs := rfl

theorem relayOn_log (r : RelayId) (s : State) :
    (relayOn r s).log
      = s.log ++ (if 0 ≤ r ∧ r < R_COUNT then [.digitalWrite (RELAY_PIN r) HIGH] else []) := by
  unfold relayOn; split_ifs <;> simp
theorem relayOff_log (r : RelayId) (s : State) :
    (relayOff r s).log
      = s.log ++ (if 0 ≤ r ∧ r < R_COUNT then [.digitalWrite (RELAY_PIN r) LOW] else []) := by
  unfold relayOff; split_ifs <;> simp
theorem relayOn_relayState (r : RelayId) (s : State) :
    (relayOn r s).relayState
      = if 0 ≤ r ∧ r < R_COUNT then Function.update s.relayState r true else s.relayState := by
  unfold relayOn; split_ifs <;> simp
theorem relayOff_relayState (r : RelayId) (s : State) :
    (relayOff r s).relayState
      = if 0 ≤ r ∧ r < R_COUNT then Function.update s.relayState r false else s.relayState := by
  unfold relayOff; split_ifs <;> simp
@[simp] theorem relayOn_flashMode (r : RelayId) (s : State) :
    (relayOn r s).flashMode = s.flashMode := by
  unfold relayOn; split_ifs <;> simp
@[simp] theorem relayOff_flashMode (r : RelayId) (s : State) :
    (relayOff r s).flashMode = s.flashMode := by
  unfold relayOff; split_ifs <;> simp
@[simp] theorem relayOn_flashTarget (r : RelayId) (s : State) :
    (relayOn r s).flashTarget = s.flashTarget := by
  unfold relayOn; split_ifs <;> simp
@[simp] theorem relayOff_flashTarget (r : RelayId) (s : State) :
    (relayOff r s).flashTarget = s.flashTarget := by
  unfold relayOff; split_ifs <;> simp
@[simp] theorem relayOn_lastPressMs (r : RelayId) (s : State) :
    (relayOn r s).lastPressMs = s.lastPressMs := by
  unfold relayOn; split_ifs <;> simp
@[simp] theorem relayOff_lastPressMs (r : RelayId) (s : State) :
    (relayOff r s).lastPressMs = s.lastPressMs := by
  unfold relayOff; split_ifs <;> simp
@[simp] theorem relayOn_prefs (r : RelayId) (s : State) :
    (relayOn r s).prefs = s.prefs := by
  unfold relayOn; split_ifs <;> simp
@[simp] theorem relayOff_prefs (r : RelayId) (s : State) :
    (relayOff r s).prefs = s.prefs := by
  unfold relayOff; split_ifs <;> simp

theorem pulseSampled_log (ia : ℚ) (rly : RelayId) (s : State) :
    (pulseSampled ia rly s).log
      = s.log ++ ((if 0 ≤ rly ∧ rly < R_COUNT then [.digitalWrite (RELAY_PIN rly) HIGH] else [])
          ++ [.delay PULSE_MS, .currentA, .delay POST_PULSE_MS]
          ++ (if FAST_SHORT_A ≤ ia then [] else [.overCurrent])) := by
  unfold pulseSampled
  split_ifs <;> simp [relayOn_log, *]

theorem pulseFaultState_log (ia : ℚ) (rly : RelayId) (s : State) :
    (pulseFaultState ia rly s).log
      = s.log ++ ((if 0 ≤ rly ∧ rly < R_COUNT then [.digitalWrite (RELAY_PIN rly) HIGH] else [])
          ++ [.delay PULSE_MS, .currentA, .delay POST_PULSE_MS]
          ++ (if FAST_SHORT_A ≤ ia then [] else [.overCurrent])
          ++ (if 0 ≤ rly ∧ rly < R_COUNT then [.digitalWrite (RELAY_PIN rly) LOW] else [])
          ++ [.digitalWrite PIN_BUZZER HIGH, .delay 800, .digitalWrite PIN_BUZZER LOW]) := by
  unfold pulseFaultState
  simp [relayOff_log, pulseSampled_log]

theorem pulseFaultState_relayState (ia : ℚ) (rly : RelayId) (s : State)
    (hv : 0 ≤ rly ∧ rly < R_COUNT) :
    (pulseFaultState ia rly s).relayState rly = false := by
  unfold pulseFaultState
  simp [relayOff_relayState, hv]

@[simp] theorem popupsOf_nil : popupsOf [] = [] := rfl
@[simp] theorem popupsOf_append (a b : List Event) :
    popupsOf (a ++ b) = popupsOf a ++ popupsOf b := by
  simp [popupsOf]
@[simp] theorem popupsOf_cons_popup (ft : FaultType) (r : RelayId) (l : List Event) :
    popupsOf (.showFaultChoicePopup ft r :: l) = ft :: popupsOf l := by
  simp [popupsOf]
@[simp] theorem popupsOf_cons_write (p : Int) (b : Bool) (l : List Event) :
    popupsOf (.digitalWrite p b :: l) = popupsOf l := by
  simp [popupsOf]
@[simp] theorem popupsOf_cons_delay (n : Nat) (l : List Event) :
    popupsOf (.delay n :: l) = popupsOf l := by
  simp [popupsOf]
@[simp] theorem popupsOf_cons_currentA (l : List Event) :
    popupsOf (.currentA :: l) = popupsOf l := by
  simp [popupsOf]
@[simp] theorem popupsOf_cons_overCurrent (l : List Event) :
    popupsOf (.overCurrent :: l) = popupsOf l := by
  simp [popupsOf]
@[simp] theorem popupsOf_cons_refresh (l : List Event) :
    popupsOf (.refreshStatusIfChanged :: l) = popupsOf l := by
  simp [popupsOf]
@[simp] theorem popupsOf_cons_put (k : String) (v : Nat) (l : List Event) :
    popupsOf (.putULong k v :: l) = popupsOf l := by
  simp [popupsOf]
@[simp] theorem popupsOf_ite (c : Prop) [Decidable c] (a b : List Event) :
    popupsOf (if c then a else b) = if c then popupsOf a else popupsOf b := by
  split_ifs <;> rfl

end helpers

/-! ## Pulse test: override and classification -/

theorem pulse_eq_short (ask : Confirm) (ia : ℚ) (oc : Bool) (rly : RelayId) (s : State)
    (h : FAST_SHORT_A ≤ ia ∨ oc = true) :
    pulseTestAndEngage ask ia oc rly s =
      if ask .FAULT_SHORT rly (pulseFaultState ia rly s) = true then
        (true, refreshStatusIfChanged (buzzerBeep 60 (relayOn rly
          (emit (.showFaultChoicePopup .FAULT_SHORT rly) (pulseFaultState ia rly s)))))
      else
        (false, refreshStatusIfChanged
          (emit (.showFaultChoicePopup .FAULT_SHORT rly) (pulseFaultState ia rly s))) := by
  unfold pulseTestAndEngage showFaultChoicePopup pulseFaultState pulseSampled
  by_cases hf : FAST_SHORT_A ≤ ia
  · simp only [hf, decide_True, Bool.true_or, if_true]
  · have ho : oc = true := h.resolve_left hf
    simp only [hf, decide_False, Bool.false_or, ho, if_true, if_false]
    rfl

theorem pulse_eq_open (ask : Confirm) (ia : ℚ) (oc : Bool) (rly : RelayId) (s : State)
    (h : ¬ (FAST_SHORT_A ≤ ia ∨ oc = true)) (ho : ia < OPEN_THRESH_A) :
    pulseTestAndEngage ask ia oc rly s =
      if ask .FAULT_OPEN rly (pulseFaultState ia rly s) = true then
        (true, refreshStatusIfChanged (buzzerBeep 60 (relayOn rly
          (emit (.showFaultChoicePopup .FAULT_OPEN rly) (pulseFaultState ia rly s)))))
      else
        (false, refreshStatusIfChanged
          (emit (.showFaultChoicePopup .FAULT_OPEN rly) (pulseFaultState ia rly s))) := by
  unfold pulseTestAndEngage showFaultChoicePopup pulseFaultState pulseSampled
  push_neg at h
  obtain ⟨hf, hoc⟩ := h
  have hf2 : ¬ FAST_SHORT_A ≤ ia := not_le.mpr hf
  have hoc2 : oc = false := by simpa using hoc
  simp only [hf2, decide_False, Bool.false_or, hoc2, if_true, if_false, ho]
  rfl

theorem pulse_eq_normal (ask : Confirm) (ia : ℚ) (oc : Bool) (rly : RelayId) (s : State)
    (h : ¬ (FAST_SHORT_A ≤ ia ∨ oc = true)) (ho : ¬ ia < OPEN_THRESH_A) :
    pulseTestAndEngage ask ia oc rly s =
      (true, refreshStatusIfChanged (buzzerBeep 60 (pulseSampled ia rly s))) := by
  unfold pulseTestAndEngage showFaultChoicePopup pulseSampled
  push_neg at h
  obtain ⟨hf, hoc⟩ := h
  have hf2 : ¬ FAST_SHORT_A ≤ ia := not_le.mpr hf
  have hoc2 : oc = false := by simpa using hoc
  simp only [hf2, decide_False, Bool.false_or, hoc2, if_true, if_false, ho]
  rfl

/-- The fault branch shared by Short and Open, as a function of the answer. -/
theorem pulse_fault_cases (ask : Confirm) (ia : ℚ) (oc : Bool) (rly : RelayId) (s : State)
    (hfault : FAST_SHORT_A ≤ ia ∨ oc = true ∨ ia < OPEN_THRESH_A) :
    ∃ ft : FaultType,
      ft = (if FAST_SHORT_A ≤ ia ∨ oc = true then FaultType.FAULT_SHORT
            else FaultType.FAULT_OPEN) ∧
      pulseTestAndEngage ask ia oc rly s =
        if ask ft rly (pulseFaultState ia rly s) = true then
          (true, refreshStatusIfChanged (buzzerBeep 60 (relayOn rly
            (emit (.showFaultChoicePopup ft rly) (pulseFaultState ia rly s)))))
        else
          (false, refreshStatusIfChanged
            (emit (.showFaultChoicePopup ft rly) (pulseFaultState ia rly s))) := by
  by_cases h : FAST_SHORT_A ≤ ia ∨ oc = true
  · exact ⟨.FAULT_SHORT, by simp [h], pulse_eq_short ask ia oc rly s h⟩
  · have ho : ia < OPEN_THRESH_A := by
      rcases hfault with h1 | h1 | h1
      · exact absurd (Or.inl h1) h
      · exact absurd (Or.inr h1) h
      · exact h1
    exact ⟨.FAULT_OPEN, by simp [h], pulse_eq_open ask ia oc rly s h ho⟩

/-- C1. In `pulseTestAndEngage`, for every valid channel and every fault (Short
or Open): no popup is invoked before the state `s0`, the popup is invoked in
`s0` with the fault kind and the channel, the channel is de-energized in `s0`,
and no second popup follows.  The result is the operator's answer: on `false`
the channel is de-energized at return and the result is `false` (Rejected), on
`true` the channel is energized at return and the result is `true`
(Engaged). -/
theorem pulseTestAndEngage_override (ia : ℚ) (oc : Bool) (rly : RelayId) (s : State)
    (hv : 0 ≤ rly ∧ rly < R_COUNT)
    (hfault : FAST_SHORT_A ≤ ia ∨ oc = true ∨ ia < OPEN_THRESH_A) :
    ∃ (ft : FaultType) (s0 : State),
      ft = (if FAST_SHORT_A ≤ ia ∨ oc = true then FaultType.FAULT_SHORT
            else FaultType.FAULT_OPEN) ∧
      s0.relayState rly = false ∧
      popupsOf (eventsSince s s0) = [] ∧
      ∀ ask : Confirm,
        (∃ tl, (pulseTestAndEngage ask ia oc rly s).2.log
            = s0.log ++ Event.showFaultChoicePopup ft rly :: tl ∧ popupsOf tl = []) ∧
        (pulseTestAndEngage ask ia oc rly s).1 = ask ft rly s0 ∧
        (ask ft rly s0 = false →
          (pulseTestAndEngage ask ia oc rly s).1 = false ∧
          (pulseTestAndEngage ask ia oc rly s).2.relayState rly = false) ∧
        (ask ft rly s0 = true →
          (pulseTestAndEngage ask ia oc rly s).1 = true ∧
          (pulseTestAndEngage ask ia oc rly s).2.relayState rly = true) := by
  refine ⟨(if FAST_SHORT_A ≤ ia ∨ oc = true then FaultType.FAULT_SHORT
            else FaultType.FAULT_OPEN), pulseFaultState ia rly s, rfl,
    pulseFaultState_relayState ia rly s hv, ?_, ?_⟩
  · rw [eventsSince_append s _ _ (pulseFaultState_log ia rly s)]
    simp
  · intro ask
    obtain ⟨ft, hft, heq⟩ := pulse_fault_cases ask ia oc rly s hfault
    rw [← hft, heq]
    have hoff := pulseFaultState_relayState ia rly s hv
    cases hask : ask ft rly (pulseFaultState ia rly s)
    · refine ⟨⟨[.refreshStatusIfChanged], ?_, ?_⟩, ?_, ?_, ?_⟩ <;> simp [hoff]
    · refine ⟨⟨[.digitalWrite (RELAY_PIN rly) HIGH, .digitalWrite PIN_BUZZER HIGH, .delay 60,
        .digitalWrite PIN_BUZZER LOW, .refreshStatusIfChanged], ?_, ?_⟩, ?_, ?_, ?_⟩ <;>
        simp [relayOn_log, relayOn_relayState, hv]

/-- C1, witness: a sample of 50 A on channel TAIL from the initial state. -/
theorem pulseTestAndEngage_override_witness :
    (0 ≤ R_TAIL ∧ R_TAIL < R_COUNT) ∧
    (FAST_SHORT_A ≤ (50 : ℚ) ∨ false = true ∨ (50 : ℚ) < OPEN_THRESH_A) ∧
    ∃ (ft : FaultType) (s0 : State),
      ft = (if FAST_SHORT_A ≤ (50 : ℚ) ∨ false = true then FaultType.FAULT_SHORT
            else FaultType.FAULT_OPEN) ∧
      s0.relayState R_TAIL = false ∧
      popupsOf (eventsSince initState s0) = [] ∧
      ∀ ask : Confirm,
        (∃ tl, (pulseTestAndEngage ask 50 false R_TAIL initState).2.log
            = s0.log ++ Event.showFaultChoicePopup ft R_TAIL :: tl ∧ popupsOf tl = []) ∧
        (pulseTestAndEngage ask 50 false R_TAIL initState).1 = ask ft R_TAIL s0 ∧
        (ask ft R_TAIL s0 = false →
          (pulseTestAndEngage ask 50 false R_TAIL initState).1 = false ∧
          (pulseTestAndEngage ask 50 false R_TAIL initState).2.relayState R_TAIL = false) ∧
        (ask ft R_TAIL s0 = true →
          (pulseTestAndEngage ask 50 false R_TAIL initState).1 = true ∧
          (pulseTestAndEngage ask 50 false R_TAIL initState).2.relayState R_TAIL = true) :=
  ⟨by decide, Or.inl (by decide),
    pulseTestAndEngage_override 50 false R_TAIL initState (by decide) (Or.inl (by decide))⟩

/-- The popups of one pulse test, as a function of the sample and the flag. -/
theorem pulse_popups (ask : Confirm) (ia : ℚ) (oc : Bool) (rly : RelayId) (s : State) :
    popupsOf (eventsSince s (pulseTestAndEngage ask ia oc rly s).2) =
      if FAST_SHORT_A ≤ ia ∨ oc = true then [FaultType.FAULT_SHORT]
      else if ia < OPEN_THRESH_A then [FaultType.FAULT_OPEN]
      else [] := by
  by_cases h : FAST_SHORT_A ≤ ia ∨ oc = true
  · rw [pulse_eq_short ask ia oc rly s h, if_pos h]
    cases ask .FAULT_SHORT rly (pulseFaultState ia rly s) <;>
      simp [eventsSince, pulseFaultState_log, relayOn_log]
  · rw [if_neg h]
    by_cases ho : ia < OPEN_THRESH_A
    · rw [pulse_eq_open ask ia oc rly s h ho, if_pos ho]
      cases ask .FAULT_OPEN rly (pulseFaultState ia rly s) <;>
        simp [eventsSince, pulseFaultState_log, relayOn_log]
    · rw [pulse_eq_normal ask ia oc rly s h ho, if_neg ho]
      simp [eventsSince, pulseSampled_log]

/-- C2. The classification made by `pulseTestAndEngage`, read off the popup it
invokes (`FAULT_SHORT`, `FAULT_OPEN`, or none for Normal), depends only on the
first current sample `ia` and the over-threshold flag: Short iff
`ia >= FAST_SHORT_A` or the flag is set, else Open iff `ia < OPEN_THRESH_A`,
else Normal.  With the flag clear, every `ia` below `OPEN_THRESH_A` is Open,
`ia = OPEN_THRESH_A` is Normal and `ia = FAST_SHORT_A` is Short; with the flag
set, every `ia` below `OPEN_THRESH_A` is Short. -/
theorem pulseTest_classification (ask : Confirm) (rly : RelayId) (s : State) :
    (∀ (ia : ℚ) (oc : Bool),
      popupsOf (eventsSince s (pulseTestAndEngage ask ia oc rly s).2) =
        if FAST_SHORT_A ≤ ia ∨ oc = true then [FaultType.FAULT_SHORT]
        else if ia < OPEN_THRESH_A then [FaultType.FAULT_OPEN]
        else []) ∧
    (∀ ia : ℚ, ia < OPEN_THRESH_A →
      popupsOf (eventsSince s (pulseTestAndEngage ask ia false rly s).2)
        = [FaultType.FAULT_OPEN]) ∧
    popupsOf (eventsSince s (pulseTestAndEngage ask OPEN_THRESH_A false rly s).2) = [] ∧
    popupsOf (eventsSince s (pulseTestAndEngage ask FAST_SHORT_A false rly s).2)
      = [FaultType.FAULT_SHORT] ∧
    (∀ ia : ℚ, ia < OPEN_THRESH_A →
      popupsOf (eventsSince s (pulseTestAndEngage ask ia true rly s).2)
        = [FaultType.FAULT_SHORT]) := by
  have hlt : OPEN_THRESH_A < FAST_SHORT_A := by norm_num [OPEN_THRESH_A, FAST_SHORT_A, Rat.mkRat_eq_div]
  refine ⟨fun ia oc => pulse_popups ask ia oc rly s, ?_, ?_, ?_, ?_⟩
  · intro ia hia
    have h1 : ¬ FAST_SHORT_A ≤ ia := not_le.mpr (lt_trans hia hlt)
    rw [pulse_popups]; simp [h1, hia]
  · have h1 : ¬ FAST_SHORT_A ≤ OPEN_THRESH_A := not_le.mpr hlt
    rw [pulse_popups]; simp [h1]
  · rw [pulse_popups]; simp
  · intro ia _
    rw [pulse_popups]; simp

/-- C2, instance: 0.1 A with the flag clear is classified Open. -/
theorem pulseTest_classification_witness :
    mkRat 1 10 < OPEN_THRESH_A ∧
    popupsOf (eventsSince initState
      (pulseTestAndEngage (fun _ _ _ => false) (mkRat 1 10) false R_LEFT initState).2)
      = [FaultType.FAULT_OPEN] :=
  ⟨by decide,
    (pulseTest_classification (fun _ _ _ => false) R_LEFT initState).2.1 (mkRat 1 10)
      (by decide)⟩

/-! ## RF fingerprint: the value 0 is reserved -/

/-- C3. The normalise-and-hash stage of `captureRfHashBlocking` returns 0
exactly when fewer than 8 transitions were recorded.  For 8 or more recorded
durations (in particular for 8 to 128 of them) the result is the raw hash when
that is non-zero and `0xFFFFFFFF` when the raw hash is 0; it is a non-zero
32-bit value. -/
theorem rfHashStage_zero_reserved (dur : List Nat) :
    (rfHashStage dur = 0 ↔ dur.length < 8) ∧
    (8 ≤ dur.length →
      rfHashStage dur ≠ 0 ∧ rfHashStage dur < 2 ^ 32 ∧
      (rfRawHash dur = 0 → rfHashStage dur = 0xFFFFFFFF) ∧
      (rfRawHash dur ≠ 0 → rfHashStage dur = rfRawHash dur)) := by
  have hraw : rfRawHash dur < 2 ^ 32 := by
    unfold rfRawHash fnv1a
    exact Nat.mod_lt _ (by norm_num)
  by_cases hlen : dur.length < 8
  · refine ⟨?_, fun h => absurd hlen (by omega)⟩
    simp [rfHashStage, hlen]
  · by_cases h0 : rfRawHash dur = 0
    · have hv : rfHashStage dur = 0xFFFFFFFF := by simp [rfHashStage, hlen, h0]
      refine ⟨?_, fun _ => ⟨?_, ?_, fun _ => hv, fun h => absurd h0 h⟩⟩
      · rw [hv]; constructor
        · intro h; norm_num at h
        · intro h; exact absurd h hlen
      · rw [hv]; norm_num
      · rw [hv]; norm_num
    · have hv : rfHashStage dur = rfRawHash dur := by simp [rfHashStage, hlen, h0]
      refine ⟨?_, fun _ => ⟨?_, ?_, fun h => absurd h h0, fun _ => hv⟩⟩
      · rw [hv]; constructor
        · intro h; exact absurd h h0
        · intro h; exact absurd h hlen
      · rw [hv]; exact h0
      · rw [hv]; exact hraw

/-- C3, instance: eight equal durations of 300 microseconds give a non-zero
fingerprint, seven give 0. -/
theorem rfHashStage_zero_reserved_witness :
    rfHashStage [300, 300, 300, 300, 300, 300, 300] = 0 ∧
    8 ≤ [300, 300, 300, 300, 300, 300, 300, 300].length ∧
    rfHashStage [300, 300, 300, 300, 300, 300, 300, 300] ≠ 0 :=
  ⟨(rfHashStage_zero_reserved [300, 300, 300, 300, 300, 300, 300]).1.mpr (by decide),
    by decide,
    ((rfHashStage_zero_reserved [300, 300, 300, 300, 300, 300, 300, 300]).2 (by decide)).1⟩

/-! ## RF command matcher: equations for the three outcomes -/

theorem rfTarget_spec (prefs : String → Option Nat) (code : Nat) (c : RelayId)
    (h : rfTarget prefs code = c) (hc : c ≠ R_NONE) :
    (0 ≤ c ∧ c < R_COUNT) ∧ getULong prefs (RF_PREF_KEYS c) 0 = code := by
  unfold rfTarget at h
  split at h
  · next i hi =>
    have hmem := List.mem_of_find?_eq_some hi
    have hp := List.find?_some hi
    simp only [List.mem_range] at hmem
    subst h
    refine ⟨⟨Int.ofNat_nonneg i, ?_⟩, ?_⟩
    · show Int.ofNat i < 6
      simp only [Int.ofNat_eq_coe]; omega
    · have hp2 : code = getULong prefs (RF_PREF_KEYS (Int.ofNat i)) 0 := by simpa using hp
      exact hp2.symm
  · exact absurd h.symm hc

theorem rfTarget_none (prefs : String → Option Nat) (code : Nat)
    (h : ∀ i : Int, 0 ≤ i → i < R_COUNT → getULong prefs (RF_PREF_KEYS i) 0 ≠ code) :
    rfTarget prefs code = R_NONE := by
  unfold rfTarget
  split
  · next i hi =>
    have hmem := List.mem_of_find?_eq_some hi
    have hp := List.find?_some hi
    simp only [List.mem_range] at hmem
    have hlt : Int.ofNat i < R_COUNT := by
      show Int.ofNat i < 6
      simp only [Int.ofNat_eq_coe]; omega
    have := h (Int.ofNat i) (Int.ofNat_nonneg i) hlt
    have hp2 : code = getULong prefs (RF_PREF_KEYS (Int.ofNat i)) 0 := by simpa using hp
    exact absurd hp2.symm this
  · rfl

theorem sub32_eq_emod (a b : Nat) :
    ((sub32 a b : Nat) : Int) = ((a : Int) - (b : Int)) % 2 ^ 32 := by
  unfold sub32
  have hb : b % 2 ^ 32 < 2 ^ 32 := Nat.mod_lt _ (by norm_num)
  omega

theorem rfService_double_eq (ask : Confirm) (inp : RfInput) (s : State) (c : RelayId)
    (hm : Matched inp s c) (hd : sub32 inp.now (s.lastPressMs c) < DOUBLE_PRESS_MS) :
    rfService ask inp s =
      { refreshStatusIfChanged
          (if s.flashMode = true then
            relayOff c { pressRecorded inp c s with flashMode := !s.flashMode, flashTarget := c }
           else { pressRecorded inp c s with flashMode := !s.flashMode, flashTarget := c })
        with rfLast := inp.cur } := by
  obtain ⟨h1, h2, h3, h4, h5, h6⟩ := hm
  unfold rfService pressRecorded
  simp only [h1, h2, h3, h5, hd]
  cases hf : s.flashMode <;> simp [HIGH, LOW, h4, h6]

theorem rfService_single_eq (ask : Confirm) (inp : RfInput) (s : State) (c : RelayId)
    (hm : Matched inp s c) (hd : ¬ sub32 inp.now (s.lastPressMs c) < DOUBLE_PRESS_MS) :
    rfService ask inp s =
      { refreshStatusIfChanged
          { (if s.relayState c = true then buzzerBeep 60 (relayOff c (pressRecorded inp c s))
             else (pulseTestAndEngage ask inp.ia inp.oc c (pressRecorded inp c s)).2)
            with lastRfRelay := c, flashTarget := c }
        with rfLast := inp.cur } := by
  obtain ⟨h1, h2, h3, h4, h5, h6⟩ := hm
  unfold rfService pressRecorded
  simp only [h1, h2, h3, h5, hd]
  simp [HIGH, LOW, h4, h6]

theorem rfService_unmatched_eq (ask : Confirm) (inp : RfInput) (s : State)
    (h1 : s.rfEnabled = true) (h2 : s.rfLast = HIGH) (h3 : inp.cur = LOW) (h4 : inp.code ≠ 0)
    (h5 : rfTarget s.prefs inp.code = R_NONE) :
    rfService ask inp s = { buzzerBeep 30 s with rfLast := inp.cur } := by
  unfold rfService
  simp only [h1, h2, h3, h5]
  simp [HIGH, LOW, h4]

/-- A call of `rfService` that does not capture only records the RF level. -/
theorem rfService_idle_eq (ask : Confirm) (inp : RfInput) (s : State)
    (h : s.rfEnabled = false ∨ ¬ (s.rfLast = HIGH ∧ inp.cur = LOW) ∨ inp.code = 0) :
    rfService ask inp s = if s.rfEnabled = true then { s with rfLast := inp.cur } else s := by
  unfold rfService
  cases he : s.rfEnabled
  · simp
  · rcases h with h | h | h
    · rw [he] at h; exact absurd h (by decide)
    · simp [h, he]
    · simp [h, he]

/-! ## Frame of the pulse test -/

theorem pulseSampled_frame (ia : ℚ) (rly : RelayId) (s : State) :
    (pulseSampled ia rly s).flashMode = s.flashMode ∧
    (pulseSampled ia rly s).flashTarget = s.flashTarget ∧
    (pulseSampled ia rly s).lastPressMs = s.lastPressMs ∧
    (pulseSampled ia rly s).prefs = s.prefs := by
  unfold pulseSampled
  split_ifs <;> simp

theorem pulseFaultState_frame (ia : ℚ) (rly : RelayId) (s : State) :
    (pulseFaultState ia rly s).flashMode = s.flashMode ∧
    (pulseFaultState ia rly s).flashTarget = s.flashTarget ∧
    (pulseFaultState ia rly s).lastPressMs = s.lastPressMs ∧
    (pulseFaultState ia rly s).prefs = s.prefs := by
  obtain ⟨h1, h2, h3, h4⟩ := pulseSampled_frame ia rly s
  unfold pulseFaultState
  simp [h1, h2, h3, h4]

/-- The pulse test changes neither flash mode, nor the flash target, nor the
press history, nor the preference store. -/
theorem pulse_frame (ask : Confirm) (ia : ℚ) (oc : Bool) (rly : RelayId) (s : State) :
    (pulseTestAndEngage ask ia oc rly s).2.flashMode = s.flashMode ∧
    (pulseTestAndEngage ask ia oc rly s).2.flashTarget = s.flashTarget ∧
    (pulseTestAndEngage ask ia oc rly s).2.lastPressMs = s.lastPressMs ∧
    (pulseTestAndEngage ask ia oc rly s).2.prefs = s.prefs := by
  obtain ⟨f1, f2, f3, f4⟩ := pulseFaultState_frame ia rly s
  obtain ⟨g1, g2, g3, g4⟩ := pulseSampled_frame ia rly s
  by_cases h : FAST_SHORT_A ≤ ia ∨ oc = true
  · rw [pulse_eq_short ask ia oc rly s h]
    split_ifs <;> simp [f1, f2, f3, f4]
  · by_cases ho : ia < OPEN_THRESH_A
    · rw [pulse_eq_open ask ia oc rly s h ho]
      split_ifs <;> simp [f1, f2, f3, f4]
    · rw [pulse_eq_normal ask ia oc rly s h ho]
      simp [g1, g2, g3, g4]

/-- The pulse test only appends to the log. -/
theorem pulse_log_append (ask : Confirm) (ia : ℚ) (oc : Bool) (rly : RelayId) (s : State) :
    ∃ d, (pulseTestAndEngage ask ia oc rly s).2.log = s.log ++ d := by
  by_cases h : FAST_SHORT_A ≤ ia ∨ oc = true
  · rw [pulse_eq_short ask ia oc rly s h]
    split_ifs
    · exact ⟨_, by simp only [refresh_log, buzzerBeep_log, relayOn_log, emit_log,
        pulseFaultState_log, List.append_assoc]; rfl⟩
    · exact ⟨_, by simp only [refresh_log, emit_log, pulseFaultState_log, List.append_assoc]; rfl⟩
  · by_cases ho : ia < OPEN_THRESH_A
    · rw [pulse_eq_open ask ia oc rly s h ho]
      split_ifs
      · exact ⟨_, by simp only [refresh_log, buzzerBeep_log, relayOn_log, emit_log,
          pulseFaultState_log, List.append_assoc]; rfl⟩
      · exact ⟨_, by simp only [refresh_log, emit_log, pulseFaultState_log, List.append_assoc]; rfl⟩
    · rw [pulse_eq_normal ask ia oc rly s h ho]
      exact ⟨_, by simp only [refresh_log, buzzerBeep_log, pulseSampled_log,
        List.append_assoc]; rfl⟩

@[simp] theorem pressRecorded_log (inp : RfInput) (c : RelayId) (s : State) :
    (pressRecorded inp c s).log = s.log := rfl
@[simp] theorem pressRecorded_relayState (inp : RfInput) (c : RelayId) (s : State) :
    (pressRecorded inp c s).relayState = s.relayState := rfl
@[simp] theorem pressRecorded_flashMode (inp : RfInput) (c : RelayId) (s : State) :
    (pressRecorded inp c s).flashMode = s.flashMode := rfl
@[simp] theorem pressRecorded_flashTarget (inp : RfInput) (c : RelayId) (s : State) :
    (pressRecorded inp c s).flashTarget = s.flashTarget := rfl
@[simp] theorem pressRecorded_prefs (inp : RfInput) (c : RelayId) (s : State) :
    (pressRecorded inp c s).prefs = s.prefs := rfl
@[simp] theorem pressRecorded_lastPressMs (inp : RfInput) (c : RelayId) (s : State) :
    (pressRecorded inp c s).lastPressMs = Function.update s.lastPressMs c inp.now := rfl

/-! ## RF command matcher: single and double presses -/

theorem double_toggles (ask : Confirm) (inp : RfInput) (s : State) (c : RelayId)
    (hm : Matched inp s c) (hd : sub32 inp.now (s.lastPressMs c) < DOUBLE_PRESS_MS) :
    (rfService ask inp s).flashMode = !s.flashMode := by
  rw [rfService_double_eq ask inp s c hm hd]
  split_ifs <;> simp

theorem single_handled (ask : Confirm) (inp : RfInput) (s : State) (c : RelayId)
    (hm : Matched inp s c) (hd : ¬ sub32 inp.now (s.lastPressMs c) < DOUBLE_PRESS_MS) :
    HandledAsSingle ask inp s c := by
  have hv := (rfTarget_spec s.prefs inp.code c hm.2.2.2.2.1 hm.2.2.2.2.2).1
  have heq := rfService_single_eq ask inp s c hm hd
  obtain ⟨f1, -, -, -⟩ := pulse_frame ask inp.ia inp.oc c (pressRecorded inp c s)
  obtain ⟨d, hdlog⟩ := pulse_log_append ask inp.ia inp.oc c (pressRecorded inp c s)
  refine ⟨?_, ?_, ?_⟩
  · rw [heq]
    by_cases hr : s.relayState c = true
    · simp [hr]
    · simp [hr, f1]
  · intro hr
    rw [heq]
    constructor
    · simp [hr, relayOff_relayState, hv]
    · simp [hr, eventsSince, relayOff_log, hv]
  · intro hr
    rw [heq]
    constructor
    · simp [hr]
    · simp only [pressRecorded_log] at hdlog
      simp [hr, eventsSince, hdlog]

theorem matched_lastPressMs (ask : Confirm) (inp : RfInput) (s : State) (c : RelayId)
    (hm : Matched inp s c) :
    (rfService ask inp s).lastPressMs = Function.update s.lastPressMs c inp.now := by
  by_cases hd : sub32 inp.now (s.lastPressMs c) < DOUBLE_PRESS_MS
  · rw [rfService_double_eq ask inp s c hm hd]
    split_ifs <;> simp
  · rw [rfService_single_eq ask inp s c hm hd]
    obtain ⟨-, -, f3, -⟩ := pulse_frame ask inp.ia inp.oc c (pressRecorded inp c s)
    by_cases hr : s.relayState c = true
    · simp [hr]
    · simp [hr, f3]

theorem sub32_lt_iff (a b : Nat) :
    sub32 a b < DOUBLE_PRESS_MS ↔ ((a : Int) - (b : Int)) % 2 ^ 32 < 500 := by
  rw [← sub32_eq_emod]
  unfold DOUBLE_PRESS_MS
  omega

/-- C4. In `rfService`, a matched capture on channel `c` at time `now` is
classified double (it toggles flash mode) exactly when `now - lastPressMs[c]`,
taken modulo `2^32`, is below 500, and is handled as a single press exactly
when it is not; `lastPressMs[c]` becomes `now` in both branches and no other
cell changes.  Hence a second matched capture on `c` whose clock value is
100 ms later toggles flash mode, whatever happened in between to anything but
`lastPressMs[c]`. -/
theorem rfService_double_press_window (ask : Confirm) (inp : RfInput) (s : State)
    (c : RelayId) (hm : Matched inp s c) :
    (TogglesFlash ask inp s ↔ ((inp.now : Int) - (s.lastPressMs c : Int)) % 2 ^ 32 < 500) ∧
    (HandledAsSingle ask inp s c ↔
      ¬ ((inp.now : Int) - (s.lastPressMs c : Int)) % 2 ^ 32 < 500) ∧
    (rfService ask inp s).lastPressMs = Function.update s.lastPressMs c inp.now ∧
    ∀ (ask2 : Confirm) (inp2 : RfInput) (s2 : State),
      Matched inp2 s2 c →
      s2.lastPressMs c = (rfService ask inp s).lastPressMs c →
      inp2.now = (inp.now + 100) % 2 ^ 32 →
      TogglesFlash ask2 inp2 s2 := by
  have hiff := sub32_lt_iff inp.now (s.lastPressMs c)
  have hlast := matched_lastPressMs ask inp s c hm
  refine ⟨?_, ?_, hlast, ?_⟩
  · rw [← hiff]
    constructor
    · intro ht
      by_contra hd
      have hs := (single_handled ask inp s c hm hd).1
      unfold TogglesFlash at ht
      rw [hs] at ht
      cases hfm : s.flashMode <;> simp [hfm] at ht
    · intro hd
      exact double_toggles ask inp s c hm hd
  · rw [← hiff]
    constructor
    · intro hs hd
      have ht := double_toggles ask inp s c hm hd
      rw [hs.1] at ht
      cases hfm : s.flashMode <;> simp [hfm] at ht
    · intro hd
      exact single_handled ask inp s c hm hd
  · intro ask2 inp2 s2 hm2 hsame hnow
    apply double_toggles ask2 inp2 s2 c hm2
    rw [sub32_lt_iff, hsame, hlast, hnow]
    simp only [Function.update_same]
    push_cast
    omega

/-- C4, witness: TAIL is pressed at 1000 ms, the line goes idle, TAIL is
pressed again at 1100 ms; the second press toggles flash mode. -/
theorem rfService_double_press_window_witness :
    Matched (pressAt 1000) tailBound R_TAIL ∧
    Matched (pressAt 1100)
      (rfService askCancel lineIdle (rfService askCancel (pressAt 1000) tailBound)) R_TAIL ∧
    TogglesFlash askCancel (pressAt 1100)
      (rfService askCancel lineIdle (rfService askCancel (pressAt 1000) tailBound)) :=
  ⟨by unfold Matched; decide, by unfold Matched; decide,
    (rfService_double_press_window askCancel (pressAt 1000) tailBound R_TAIL
        (by unfold Matched; decide)).2.2.2
      askCancel (pressAt 1100)
      (rfService askCancel lineIdle (rfService askCancel (pressAt 1000) tailBound))
      (by unfold Matched; decide) (by decide) (by decide)⟩

theorem single_not_toggles (ask : Confirm) (inp : RfInput) (s : State) (c : RelayId)
    (h : HandledAsSingle ask inp s c) : ¬ TogglesFlash ask inp s := by
  intro ht
  unfold TogglesFlash at ht
  rw [h.1] at ht
  cases hfm : s.flashMode <;> simp [hfm] at ht

/-- C5, counterexample.  From the initial press history, a first matched
capture on TAIL at clock value 100 ms toggles flash mode and is not handled as
a single press (the capture 600 ms later, at 700 ms, is matched as well). -/
theorem first_press_within_window_counterexample :
    tailBound.lastPressMs R_TAIL = 0 ∧
    Matched (pressAt 100) tailBound R_TAIL ∧
    Matched (pressAt (100 + 600))
      (rfService askCancel lineIdle (rfService askCancel (pressAt 100) tailBound)) R_TAIL ∧
    TogglesFlash askCancel (pressAt 100) tailBound ∧
    ¬ HandledAsSingle askCancel (pressAt 100) tailBound R_TAIL ∧
    eventsSince tailBound (rfService askCancel (pressAt 100) tailBound)
      = [.refreshStatusIfChanged] :=
  ⟨by decide, by unfold Matched; decide, by unfold Matched; decide,
    by unfold TogglesFlash; decide,
    fun h => absurd h.1 (by decide), by decide⟩

/-- C5, amended.  Let the press history of channel `c` be initial
(`lastPressMs[c] = 0`) and let two matched captures on `c` have the clock
values of times `t` and `t + 600 ms`, nothing in between having changed
`lastPressMs[c]`.  The second capture is handled as a single press and does not
toggle flash mode, for every `t`.  If the clock value of the first capture,
`t mod 2^32`, is at least 500, the first capture is handled as a single press
too and does not toggle flash mode. -/
theorem rfService_presses_600_apart (ask1 ask2 : Confirm) (inp1 inp2 : RfInput)
    (s s2 : State) (c : RelayId) (t : Nat)
    (hinit : s.lastPressMs c = 0)
    (hm1 : Matched inp1 s c) (hnow1 : inp1.now = t % 2 ^ 32)
    (hm2 : Matched inp2 s2 c)
    (hsame : s2.lastPressMs c = (rfService ask1 inp1 s).lastPressMs c)
    (hnow2 : inp2.now = (t + 600) % 2 ^ 32) :
    (HandledAsSingle ask2 inp2 s2 c ∧ ¬ TogglesFlash ask2 inp2 s2) ∧
    (500 ≤ t % 2 ^ 32 →
      HandledAsSingle ask1 inp1 s c ∧ ¬ TogglesFlash ask1 inp1 s) := by
  have hlast := matched_lastPressMs ask1 inp1 s c hm1
  constructor
  · have hd : ¬ sub32 inp2.now (s2.lastPressMs c) < DOUBLE_PRESS_MS := by
      rw [sub32_lt_iff, hsame, hlast, hnow2, hnow1]
      simp only [Function.update_same]
      push_cast
      omega
    have h := single_handled ask2 inp2 s2 c hm2 hd
    exact ⟨h, single_not_toggles ask2 inp2 s2 c h⟩
  · intro ht
    have hd : ¬ sub32 inp1.now (s.lastPressMs c) < DOUBLE_PRESS_MS := by
      rw [sub32_lt_iff, hinit, hnow1]
      push_cast
      omega
    have h := single_handled ask1 inp1 s c hm1 hd
    exact ⟨h, single_not_toggles ask1 inp1 s c h⟩

/-- C5, witness: presses on TAIL at 1000 ms and 1600 ms after boot. -/
theorem rfService_presses_600_apart_witness :
    500 ≤ 1000 % 2 ^ 32 ∧
    (HandledAsSingle askCancel (pressAt (1000 + 600))
        (rfService askCancel lineIdle (rfService askCancel (pressAt 1000) tailBound)) R_TAIL ∧
      ¬ TogglesFlash askCancel (pressAt (1000 + 600))
        (rfService askCancel lineIdle (rfService askCancel (pressAt 1000) tailBound))) ∧
    HandledAsSingle askCancel (pressAt 1000) tailBound R_TAIL ∧
    ¬ TogglesFlash askCancel (pressAt 1000) tailBound :=
  have h := rfService_presses_600_apart askCancel askCancel (pressAt 1000) (pressAt (1000 + 600))
    tailBound (rfService askCancel lineIdle (rfService askCancel (pressAt 1000) tailBound))
    R_TAIL 1000 (by decide) (by unfold Matched; decide) (by decide)
    (by unfold Matched; decide) (by decide) (by decide)
  ⟨by decide, h.1, h.2 (by decide)⟩

theorem channel_cases (c : Int) (hv : 0 ≤ c ∧ c < R_COUNT) :
    c = 0 ∨ c = 1 ∨ c = 2 ∨ c = 3 ∨ c = 4 ∨ c = 5 := by
  obtain ⟨h0, h1⟩ := hv
  have h2 : c < 6 := h1
  omega

theorem RELAY_PIN_ne_buzzer (c : RelayId) (hv : 0 ≤ c ∧ c < R_COUNT) :
    RELAY_PIN c ≠ PIN_BUZZER := by
  rcases channel_cases c hv with h | h | h | h | h | h <;> subst h <;> decide

/-- C6, counterexample.  Flash mode is active with target LEFT, LEFT is
energized, and TAIL is double-pressed (5200 ms, 200 ms after its last press).
Flash mode becomes off, the flash target before the press was LEFT, yet LEFT
stays energized: the only relay pin written is that of TAIL, the new flash
target. -/
theorem double_press_deenergizes_new_target_counterexample :
    Matched (pressAt 5200) flashingLeft R_TAIL ∧
    TogglesFlash askCancel (pressAt 5200) flashingLeft ∧
    flashingLeft.flashTarget = R_LEFT ∧
    flashingLeft.relayState R_LEFT = true ∧
    (rfService askCancel (pressAt 5200) flashingLeft).flashMode = false ∧
    (rfService askCancel (pressAt 5200) flashingLeft).relayState R_LEFT = true ∧
    (rfService askCancel (pressAt 5200) flashingLeft).flashTarget = R_TAIL ∧
    deenergizedPins (eventsSince flashingLeft (rfService askCancel (pressAt 5200) flashingLeft))
      = [PIN_RLY_TAIL] :=
  ⟨by unfold Matched; decide, by unfold TogglesFlash; decide, by decide, by decide, by decide,
    by decide, by decide, by decide⟩

/-- C6, amended.  On a double press matched to channel `c`, `rfService` negates
flash mode, then sets the flash target to `c`, and then, if flash mode has
thereby become off, de-energizes `c` (the new flash target) and no other
channel; if flash mode has become on, no relay state changes.  No pulse test
is run (no current sample, no popup) and no relay pin is driven high. -/
theorem rfService_double_press_order (ask : Confirm) (inp : RfInput) (s : State)
    (c : RelayId) (hm : Matched inp s c)
    (hd : ((inp.now : Int) - (s.lastPressMs c : Int)) % 2 ^ 32 < 500) :
    (rfService ask inp s).flashMode = (!s.flashMode) ∧
    (rfService ask inp s).flashTarget = c ∧
    (s.flashMode = true →
      (rfService ask inp s).relayState = Function.update s.relayState c false ∧
      deenergizedPins (eventsSince s (rfService ask inp s)) = [RELAY_PIN c]) ∧
    (s.flashMode = false →
      (rfService ask inp s).relayState = s.relayState ∧
      deenergizedPins (eventsSince s (rfService ask inp s)) = []) ∧
    currentSamples (eventsSince s (rfService ask inp s)) = 0 ∧
    popupsOf (eventsSince s (rfService ask inp s)) = [] ∧
    energizedPins (eventsSince s (rfService ask inp s)) = [] := by
  have hv := (rfTarget_spec s.prefs inp.code c hm.2.2.2.2.1 hm.2.2.2.2.2).1
  have hpin := RELAY_PIN_ne_buzzer c hv
  rw [← sub32_lt_iff] at hd
  rw [rfService_double_eq ask inp s c hm hd]
  cases hfm : s.flashMode <;>
    simp [eventsSince, relayOff_log, relayOff_relayState, hv, hpin, deenergizedPins,
      energizedPins, currentSamples, LOW]

/-- C6, witness: the second of two presses on TAIL 100 ms apart. -/
theorem rfService_double_press_order_witness :
    Matched (pressAt 1100)
      (rfService askCancel lineIdle (rfService askCancel (pressAt 1000) tailBound)) R_TAIL ∧
    (rfService askCancel (pressAt 1100)
      (rfService askCancel lineIdle (rfService askCancel (pressAt 1000) tailBound))).flashTarget
      = R_TAIL ∧
    popupsOf (eventsSince
      (rfService askCancel lineIdle (rfService askCancel (pressAt 1000) tailBound))
      (rfService askCancel (pressAt 1100)
        (rfService askCancel lineIdle (rfService askCancel (pressAt 1000) tailBound)))) = [] :=
  have h := rfService_double_press_order askCancel (pressAt 1100)
    (rfService askCancel lineIdle (rfService askCancel (pressAt 1000) tailBound)) R_TAIL
    (by unfold Matched; decide) (by decide)
  ⟨by unfold Matched; decide, h.2.1, h.2.2.2.2.2.1⟩

/-- C7.  On a single (non-double) press matched to channel `c`, flash mode
keeps its value.  If `relayState[c]` is true, `c` is de-energized, every other
channel keeps its relay state, and no pulse test is run (no current sample, no
popup, no relay pin driven high, only the pin of `c` driven low).  Otherwise
the relay states are those `pulseTestAndEngage(c)` leaves, and the calls are
those of `pulseTestAndEngage(c)` followed by the status refresh. -/
theorem rfService_single_press (ask : Confirm) (inp : RfInput) (s : State)
    (c : RelayId) (hm : Matched inp s c)
    (hd : ¬ ((inp.now : Int) - (s.lastPressMs c : Int)) % 2 ^ 32 < 500) :
    (rfService ask inp s).flashMode = s.flashMode ∧
    (s.relayState c = true →
      (rfService ask inp s).relayState c = false ∧
      (∀ i : Int, i ≠ c → (rfService ask inp s).relayState i = s.relayState i) ∧
      currentSamples (eventsSince s (rfService ask inp s)) = 0 ∧
      popupsOf (eventsSince s (rfService ask inp s)) = [] ∧
      energizedPins (eventsSince s (rfService ask inp s)) = [] ∧
      deenergizedPins (eventsSince s (rfService ask inp s)) = [RELAY_PIN c]) ∧
    (s.relayState c = false →
      (rfService ask inp s).relayState =
        (pulseTestAndEngage ask inp.ia inp.oc c (pressRecorded inp c s)).2.relayState ∧
      eventsSince s (rfService ask inp s) =
        eventsSince s (pulseTestAndEngage ask inp.ia inp.oc c (pressRecorded inp c s)).2
          ++ [.refreshStatusIfChanged]) := by
  have hv := (rfTarget_spec s.prefs inp.code c hm.2.2.2.2.1 hm.2.2.2.2.2).1
  have hpin := RELAY_PIN_ne_buzzer c hv
  rw [← sub32_lt_iff] at hd
  obtain ⟨h1, h2, h3⟩ := single_handled ask inp s c hm hd
  refine ⟨h1, ?_, h3⟩
  intro hr
  obtain ⟨hrs, hev⟩ := h2 hr
  rw [hrs, hev]
  refine ⟨by simp, ?_, ?_, ?_, ?_, ?_⟩
  · intro i hi
    simp [Function.update_noteq hi]
  · simp [currentSamples]
  · simp
  · simp [energizedPins, LOW, HIGH]
  · simp [deenergizedPins, LOW, HIGH, hpin]

/-- C7, witness: TAIL is pressed at 1000 ms and again at 1600 ms; the second
press finds TAIL energized and switches it off. -/
theorem rfService_single_press_witness :
    Matched (pressAt 1000) tailBound R_TAIL ∧
    (rfService askCancel (pressAt 1000) tailBound).flashMode = tailBound.flashMode ∧
    (rfService askCancel (pressAt 1000) tailBound).relayState R_TAIL = true ∧
    (rfService askCancel (pressAt 1600)
      (rfService askCancel lineIdle (rfService askCancel (pressAt 1000) tailBound))).relayState
      R_TAIL = false :=
  ⟨by unfold Matched; decide,
    (rfService_single_press askCancel (pressAt 1000) tailBound R_TAIL
      (by unfold Matched; decide) (by decide)).1,
    by decide,
    ((rfService_single_press askCancel (pressAt 1600)
      (rfService askCancel lineIdle (rfService askCancel (pressAt 1000) tailBound)) R_TAIL
      (by unfold Matched; decide) (by decide)).2.1 (by decide)).1⟩

/-- C8.  When the live fingerprint is non-zero and equals no channel's stored
code, `rfService` leaves every relay state, `flashMode`, `flashTarget`, every
last-press timestamp, `lastRfRelay` and the preference store as they were; when
the capture ran (RF enabled, falling edge), the only calls made are those of
the 30 ms chirp. -/
theorem rfService_unrecognized (ask : Confirm) (inp : RfInput) (s : State)
    (hcode : inp.code ≠ 0)
    (hno : ∀ i : Int, 0 ≤ i → i < R_COUNT → getULong s.prefs (RF_PREF_KEYS i) 0 ≠ inp.code) :
    (rfService ask inp s).relayState = s.relayState ∧
    (rfService ask inp s).flashMode = s.flashMode ∧
    (rfService ask inp s).flashTarget = s.flashTarget ∧
    (rfService ask inp s).lastPressMs = s.lastPressMs ∧
    (rfService ask inp s).lastRfRelay = s.lastRfRelay ∧
    (rfService ask inp s).prefs = s.prefs ∧
    (s.rfEnabled = true → s.rfLast = HIGH → inp.cur = LOW →
      eventsSince s (rfService ask inp s) =
        [.digitalWrite PIN_BUZZER HIGH, .delay 30, .digitalWrite PIN_BUZZER LOW]) := by
  have hnone := rfTarget_none s.prefs inp.code hno
  by_cases hcap : s.rfEnabled = true ∧ s.rfLast = HIGH ∧ inp.cur = LOW
  · obtain ⟨h1, h2, h3⟩ := hcap
    rw [rfService_unmatched_eq ask inp s h1 h2 h3 hcode hnone]
    simp [eventsSince]
  · have hidle : s.rfEnabled = false ∨ ¬ (s.rfLast = HIGH ∧ inp.cur = LOW) ∨ inp.code = 0 := by
      by_cases he : s.rfEnabled = true
      · right; left
        intro h
        exact hcap ⟨he, h.1, h.2⟩
      · left
        simpa using he
    rw [rfService_idle_eq ask inp s hidle]
    refine ⟨?_, ?_, ?_, ?_, ?_, ?_, ?_⟩
    · split_ifs <;> rfl
    · split_ifs <;> rfl
    · split_ifs <;> rfl
    · split_ifs <;> rfl
    · split_ifs <;> rfl
    · split_ifs <;> rfl
    · intro h1 h2 h3
      exact absurd ⟨h1, h2, h3⟩ hcap

/-- C8, witness: code 7 is captured while only TAIL has a code, 42. -/
theorem rfService_unrecognized_witness :
    pressUnknown.code ≠ 0 ∧
    (rfService askCancel pressUnknown tailBound).relayState = tailBound.relayState ∧
    (rfService askCancel pressUnknown tailBound).flashMode = tailBound.flashMode ∧
    (rfService askCancel pressUnknown tailBound).lastPressMs = tailBound.lastPressMs ∧
    eventsSince tailBound (rfService askCancel pressUnknown tailBound) =
      [.digitalWrite PIN_BUZZER HIGH, .delay 30, .digitalWrite PIN_BUZZER LOW] :=
  have h := rfService_unrecognized askCancel pressUnknown tailBound (by decide)
    (by
      intro i h0 h1
      rcases channel_cases i ⟨h0, h1⟩ with h | h | h | h | h | h <;> subst h <;> decide)
  ⟨by decide, h.1, h.2.1, h.2.2.2.1, h.2.2.2.2.2.2 (by decide) (by decide) (by decide)⟩

/-! ## Learn wizard -/

@[simp] theorem putsOf_nil : putsOf [] = [] := rfl
@[simp] theorem putsOf_append (a b : List Event) :
    putsOf (a ++ b) = putsOf a ++ putsOf b := by
  simp [putsOf]

theorem learnLoop_log (caps : Nat → Nat) (n : Nat) :
    ∀ (i : Nat) (s : State),
      ∃ d, (startRfLearnLoop caps n i s).log = s.log ++ d ∧
        putsOf d = learnedWrites caps n i := by
  induction n with
  | zero =>
    intro i s
    refine ⟨[.digitalWrite PIN_BUZZER HIGH, .delay 120, .digitalWrite PIN_BUZZER LOW,
      .delay 1000], ?_, ?_⟩
    · simp [startRfLearnLoop]
    · simp [putsOf, learnedWrites]
  | succ n ih =>
    intro i s
    by_cases h0 : caps i = 0
    · refine ⟨[.delay 1000], ?_, ?_⟩
      · simp [startRfLearnLoop, h0]
      · simp [putsOf, learnedWrites, h0]
    · obtain ⟨d, hd, hp⟩ := ih (i + 1)
        (emit (.delay 800) (buzzerBeep 80 (putULong (RF_PREF_KEYS (Int.ofNat i)) (caps i) s)))
      refine ⟨[.putULong (RF_PREF_KEYS (Int.ofNat i)) (caps i), .digitalWrite PIN_BUZZER HIGH,
        .delay 80, .digitalWrite PIN_BUZZER LOW, .delay 800] ++ d, ?_, ?_⟩
      · simp only [startRfLearnLoop, h0, if_false]
        rw [hd]
        simp [putULong]
      · rw [putsOf_append, hp]
        simp [putsOf, learnedWrites, h0]

theorem learnLoop_prefs (caps : Nat → Nat) (n : Nat) :
    ∀ (i : Nat) (s : State) (key : String),
      key ∉ (learnedWrites caps n i).map Prod.fst →
      (startRfLearnLoop caps n i s).prefs key = s.prefs key := by
  induction n with
  | zero =>
    intro i s key _
    simp [startRfLearnLoop]
  | succ n ih =>
    intro i s key hk
    by_cases h0 : caps i = 0
    · simp [startRfLearnLoop, h0]
    · simp only [learnedWrites, h0, if_false, List.map_cons, List.mem_cons, not_or] at hk
      simp only [startRfLearnLoop, h0, if_false]
      rw [ih (i + 1) _ key hk.2]
      have hne : key ≠ RF_PREF_KEYS (Int.ofNat i) := hk.1
      simp only [emit_prefs, buzzerBeep_prefs, putULong]
      exact Function.update_noteq hne _ _

theorem learnedWrites_nonzero (caps : Nat → Nat) (n : Nat) :
    ∀ (i : Nat), ∀ kv ∈ learnedWrites caps n i, kv.2 ≠ 0 := by
  induction n with
  | zero => intro i kv h; simp [learnedWrites] at h
  | succ n ih =>
    intro i kv h
    by_cases h0 : caps i = 0
    · simp [learnedWrites, h0] at h
    · simp only [learnedWrites, h0, if_false, List.mem_cons] at h
      rcases h with h | h
      · rw [h]; exact h0
      · exact ih (i + 1) kv h

theorem learnedWrites_stop (caps : Nat → Nat) (n : Nat) :
    ∀ (i j : Nat), i ≤ j → j < i + n → (∀ m, i ≤ m → m < j → caps m ≠ 0) → caps j = 0 →
      learnedWrites caps n i
        = (List.range' i (j - i)).map (fun m => (RF_PREF_KEYS (Int.ofNat m), caps m)) := by
  induction n with
  | zero => intro i j h1 h2; omega
  | succ n ih =>
    intro i j h1 h2 hnz hz
    by_cases hij : i = j
    · subst hij
      simp [learnedWrites, hz]
    · have h0 : caps i ≠ 0 := hnz i (le_refl i) (by omega)
      have hlen : j - i = (j - (i + 1)) + 1 := by omega
      rw [hlen, List.range'_succ]
      simp only [learnedWrites, h0, if_false, List.map_cons]
      rw [ih (i + 1) j (by omega) (by omega) (fun m hm1 hm2 => hnz m (by omega) hm2) hz]

theorem learnedWrites_all (caps : Nat → Nat) (n : Nat) :
    ∀ (i : Nat), (∀ m, i ≤ m → m < i + n → caps m ≠ 0) →
      learnedWrites caps n i
        = (List.range' i n).map (fun m => (RF_PREF_KEYS (Int.ofNat m), caps m)) := by
  induction n with
  | zero => intro i _; simp [learnedWrites]
  | succ n ih =>
    intro i hnz
    have h0 : caps i ≠ 0 := hnz i (le_refl i) (by omega)
    rw [List.range'_succ]
    simp only [learnedWrites, h0, if_false, List.map_cons]
    rw [ih (i + 1) (fun m hm1 hm2 => hnz m (by omega) (by omega))]

theorem RF_PREF_KEYS_injective (i j : Nat) (hi : i < 6) (hj : j < 6)
    (h : RF_PREF_KEYS (Int.ofNat i) = RF_PREF_KEYS (Int.ofNat j)) : i = j := by
  interval_cases i <;> interval_cases j <;> first | rfl | (exact absurd h (by decide))

theorem learnLoop_prefs_nonzero (caps : Nat → Nat) (n : Nat) :
    ∀ (i : Nat) (s : State) (key : String),
      s.prefs key ≠ some 0 → (startRfLearnLoop caps n i s).prefs key ≠ some 0 := by
  induction n with
  | zero =>
    intro i s key h
    simpa [startRfLearnLoop] using h
  | succ n ih =>
    intro i s key h
    by_cases h0 : caps i = 0
    · simpa [startRfLearnLoop, h0] using h
    · simp only [startRfLearnLoop, h0, if_false]
      apply ih
      simp only [emit_prefs, buzzerBeep_prefs, putULong]
      by_cases hk : key = RF_PREF_KEYS (Int.ofNat i)
      · subst hk
        rw [Function.update_same]
        intro hc
        exact h0 (Option.some.inj hc)
      · rw [Function.update_noteq hk]
        exact h

/-- C9.  For every sequence of capture outcomes, `startRfLearn` calls
`prefs.putULong` only with a non-zero code, and a store without a 0 entry has
none afterwards.  If capture `j` is the first to return 0, the writes are
exactly those of channels `0 .. j-1`, each with its captured code, and the
entries of channel `j` and of all later channels are untouched.  If no capture
returns 0, all six channels are written. -/
theorem startRfLearn_never_writes_zero (caps : Nat → Nat) (s : State) :
    (∀ kv ∈ putsOf (eventsSince s (startRfLearn caps s)), kv.2 ≠ 0) ∧
    (∀ key, s.prefs key ≠ some 0 → (startRfLearn caps s).prefs key ≠ some 0) ∧
    (∀ j, j < 6 → (∀ m, m < j → caps m ≠ 0) → caps j = 0 →
      putsOf (eventsSince s (startRfLearn caps s))
        = (List.range j).map (fun m => (RF_PREF_KEYS (Int.ofNat m), caps m)) ∧
      ∀ m, j ≤ m → m < 6 →
        (startRfLearn caps s).prefs (RF_PREF_KEYS (Int.ofNat m))
          = s.prefs (RF_PREF_KEYS (Int.ofNat m))) ∧
    ((∀ m, m < 6 → caps m ≠ 0) →
      putsOf (eventsSince s (startRfLearn caps s))
        = (List.range 6).map (fun m => (RF_PREF_KEYS (Int.ofNat m), caps m))) := by
  obtain ⟨d, hd, hp⟩ := learnLoop_log caps 6 0 s
  have hev : eventsSince s (startRfLearn caps s) = d := eventsSince_append s _ d hd
  rw [hev, hp]
  refine ⟨learnedWrites_nonzero caps 6 0, learnLoop_prefs_nonzero caps 6 0 s, ?_, ?_⟩
  · intro j hj hnz hz
    have hstop := learnedWrites_stop caps 6 0 j (Nat.zero_le j) (by omega)
      (fun m _ hm => hnz m hm) hz
    rw [Nat.sub_zero, ← List.range_eq_range'] at hstop
    refine ⟨hstop, ?_⟩
    intro m hm1 hm2
    apply learnLoop_prefs caps 6 0 s
    rw [hstop]
    simp only [List.map_map, List.mem_map, List.mem_range, Function.comp, not_exists, not_and]
    intro k hk heq
    have := RF_PREF_KEYS_injective k m (by omega) hm2 heq
    omega
  · intro hnz
    have hall := learnedWrites_all caps 6 0 (fun m _ hm => hnz m (by omega))
    rw [← List.range_eq_range'] at hall
    exact hall

/-- C9, instance: the third capture returns 0; LEFT and RIGHT are written,
BRAKE and the later channels are not. -/
theorem startRfLearn_never_writes_zero_witness :
    capsCancelThird 2 = 0 ∧
    putsOf (eventsSince initState (startRfLearn capsCancelThird initState))
      = [("rf_left", 11), ("rf_right", 22)] ∧
    (startRfLearn capsCancelThird initState).prefs "rf_brake" = none :=
  ⟨by decide,
    ((startRfLearn_never_writes_zero capsCancelThird initState).2.2.1 2 (by decide)
      (by intro m hm; interval_cases m <;> decide) (by decide)).1,
    by decide⟩

/-! ## Over-current trip in the main loop -/

theorem relayOffAll_eq (s : State) :
    relayOffAll s = relayOff 5 (relayOff 4 (relayOff 3 (relayOff 2 (relayOff 1 (relayOff 0 s))))) :=
  rfl

/-- C10.  When `loop` reads the over-threshold flag asserted, the trip block
leaves every channel de-energized and flash mode off, whatever the relay and
flash state were.  It invokes no popup, takes no current sample and drives no
relay pin high: its calls are the read of the flag, the six relay pins driven
low, the 800 ms alarm and the status refresh. -/
theorem loopOverCurrent_trip (s : State) :
    (∀ i : Int, 0 ≤ i → i < R_COUNT → (loopOverCurrent true s).relayState i = false) ∧
    (loopOverCurrent true s).flashMode = false ∧
    popupsOf (eventsSince s (loopOverCurrent true s)) = [] ∧
    energizedPins (eventsSince s (loopOverCurrent true s)) = [] ∧
    eventsSince s (loopOverCurrent true s) =
      [.overCurrent,
        .digitalWrite PIN_RLY_LEFT LOW, .digitalWrite PIN_RLY_RIGHT LOW,
        .digitalWrite PIN_RLY_BRAKE LOW, .digitalWrite PIN_RLY_TAIL LOW,
        .digitalWrite PIN_RLY_MARKER LOW, .digitalWrite PIN_RLY_AUX LOW,
        .digitalWrite PIN_BUZZER HIGH, .delay 800, .digitalWrite PIN_BUZZER LOW,
        .refreshStatusIfChanged] := by
  have hev : eventsSince s (loopOverCurrent true s) =
      [.overCurrent,
        .digitalWrite PIN_RLY_LEFT LOW, .digitalWrite PIN_RLY_RIGHT LOW,
        .digitalWrite PIN_RLY_BRAKE LOW, .digitalWrite PIN_RLY_TAIL LOW,
        .digitalWrite PIN_RLY_MARKER LOW, .digitalWrite PIN_RLY_AUX LOW,
        .digitalWrite PIN_BUZZER HIGH, .delay 800, .digitalWrite PIN_BUZZER LOW,
        .refreshStatusIfChanged] := by
    apply eventsSince_append
    simp [loopOverCurrent, relayOffAll_eq, relayOff, R_COUNT, RELAY_PIN]
  refine ⟨?_, ?_, ?_, ?_, hev⟩
  · intro i h0 h1
    rcases channel_cases i ⟨h0, h1⟩ with h | h | h | h | h | h <;> subst h <;>
      simp [loopOverCurrent, relayOffAll_eq, relayOff, R_COUNT]
  · simp [loopOverCurrent, relayOffAll_eq]
  · rw [hev]; simp
  · rw [hev]; simp [energizedPins, LOW, HIGH]

/-! ## RF capture: no signal, no fingerprint -/

theorem rfHashStage_lt_eight (l : List Nat) (h : l.length < 8) : rfHashStage l = 0 := by
  simp [rfHashStage, h]

theorem armLoop_cancel (env : CaptureEnv) (arm_ms start fuel : Nat) (c : Cursor) (last : Bool)
    (hko : ∀ k, env.ko k = LOW) :
    armLoop env arm_ms start (fuel + 1) c last = .returned 0 ∨
      ∃ x, armLoop env arm_ms start (fuel + 1) c last = .exited x := by
  unfold armLoop
  simp only [hko]
  split_ifs
  · exact Or.inr ⟨_, rfl⟩
  · exact Or.inl rfl
  · exact Or.inr ⟨_, rfl⟩

theorem recordLoop_cancel (env : CaptureEnv) (fuel : Nat) (r : RecState)
    (hko : ∀ k, env.ko k = LOW) (hidx : r.idx = 0) :
    recordLoop env (fuel + 1) r = .returned 0 ∨
      ∃ r', recordLoop env (fuel + 1) r = .exited r' ∧ r'.idx ≤ 1 := by
  unfold recordLoop
  simp only [hko, hidx]
  split_ifs
  · exact Or.inr ⟨_, rfl, by simp⟩
  · exact Or.inl rfl
  · exact Or.inr ⟨_, rfl, by simp [hidx]⟩
  · exact Or.inl rfl
  · exact Or.inr ⟨_, rfl, by simp [hidx]⟩

theorem capture_cancelled (env : CaptureEnv) (arm_ms : Nat) (stale : Nat → Nat) (fuel : Nat)
    (hko : ∀ k, env.ko k = LOW) (hfuel : 1 ≤ fuel) :
    captureRfHashBlocking env arm_ms stale fuel = some 0 := by
  obtain ⟨f, rfl⟩ : ∃ f, fuel = f + 1 := ⟨fuel - 1, by omega⟩
  unfold captureRfHashBlocking
  rcases armLoop_cancel env arm_ms (env.millis 0) f
      { nMillis := 1, nMicros := 0, nRf := 1, nKo := 0 } (env.rf 0) hko with h | ⟨⟨c, l⟩, h⟩
  · simp only [h]
  · simp only [h]
    split_ifs
    · rfl
    · rcases recordLoop_cancel env f
        { c := { c with nMillis := c.nMillis + 1, nMicros := c.nMicros + 1 }, last := l, idx := 0,
          tEdge := env.micros c.nMicros, dur := stale } hko rfl with h2 | ⟨r', h2, hle⟩
      · simp only [h2]
      · simp only [h2]
        rw [rfHashStage_lt_eight]
        simp only [List.length_map, List.length_range]
        omega


theorem armLoop_window (env : CaptureEnv) (arm_ms n : Nat)
    (hedge : NoEdgeInWindow env arm_ms)
    (hn : arm_ms ≤ sub32 (env.millis n) (env.millis 0)) :
    ∀ (fuel j : Nat), j + 1 ≤ n → n ≤ fuel + j →
      armLoop env arm_ms (env.millis 0) fuel
          { nMillis := j + 1, nMicros := 0, nRf := j + 1, nKo := j } (env.rf j) = .returned 0 ∨
        ∃ c' l', armLoop env arm_ms (env.millis 0) fuel
            { nMillis := j + 1, nMicros := 0, nRf := j + 1, nKo := j } (env.rf j)
              = .exited (c', l') ∧
          ∃ i, i < c'.nMillis ∧ c'.nMillis ≤ n + 1 ∧
            arm_ms ≤ sub32 (env.millis i) (env.millis 0) := by
  intro fuel
  induction fuel with
  | zero => intro j h1 h2; omega
  | succ fuel ih =>
    intro j h1 h2
    unfold armLoop
    by_cases hw : sub32 (env.millis (j + 1)) (env.millis 0) < arm_ms
    · have hne := hedge j hw
      have hj : j + 2 ≤ n := by
        rcases Nat.lt_or_ge (j + 1) n with h | h
        · omega
        · have : n = j + 1 := by omega
          subst this
          omega
      simp only [hw, hne, if_true, if_false]
      by_cases hk : env.ko j = LOW
      · simp only [hk, if_true]
        exact Or.inl trivial
      · simp only [hk, if_false]
        exact ih (j + 1) hj (by omega)
    · simp only [hw, if_false]
      exact Or.inr ⟨_, _, rfl, j + 1, by simp, by simp; omega, by omega⟩

theorem capture_window (env : CaptureEnv) (arm_ms : Nat) (stale : Nat → Nat) (n fuel : Nat)
    (hmono : ClockMonotone env (n + 1)) (hedge : NoEdgeInWindow env arm_ms)
    (hn1 : 1 ≤ n) (hn : arm_ms ≤ sub32 (env.millis n) (env.millis 0)) (hfuel : n ≤ fuel) :
    captureRfHashBlocking env arm_ms stale fuel = some 0 := by
  unfold captureRfHashBlocking
  rcases armLoop_window env arm_ms n hedge hn fuel 0 hn1 (by omega) with
    h | ⟨c', l', h, i, hi, hle, hel⟩
  · simp only [h]
  · simp only [h]
    have := hmono i c'.nMillis (le_of_lt hi) hle
    have hge : arm_ms ≤ sub32 (env.millis c'.nMillis) (env.millis 0) := le_trans hel this
    simp only [ge_iff_le, hge, if_true]


/-- C11.  `captureRfHashBlocking` returns 0 for every arm window and every
content of the static duration buffer in both no-signal cases.  (a) If the
cancel line reads asserted (low) at every poll, the call returns 0 within one
iteration of each loop, whatever the clock and the RF line do.  (b) If the
clock is monotonic, the arming loop sees no falling edge while the window is
open, and the `n`-th clock reading is `arm_ms` or more past the start, the
call returns 0 within `n` iterations. -/
theorem captureRfHashBlocking_no_signal (env : CaptureEnv) (arm_ms : Nat)
    (stale : Nat → Nat) :
    ((∀ k, env.ko k = LOW) →
      ∀ fuel, 1 ≤ fuel → captureRfHashBlocking env arm_ms stale fuel = some 0) ∧
    (∀ n, 1 ≤ n → ClockMonotone env (n + 1) → NoEdgeInWindow env arm_ms →
      arm_ms ≤ sub32 (env.millis n) (env.millis 0) →
      ∀ fuel, n ≤ fuel → captureRfHashBlocking env arm_ms stale fuel = some 0) :=
  ⟨fun hko fuel hfuel => capture_cancelled env arm_ms stale fuel hko hfuel,
    fun n hn1 hmono hedge hn fuel hfuel =>
      capture_window env arm_ms stale n fuel hmono hedge hn1 hn hfuel⟩

/-- C11, instance: with Back held down an alternating RF line gives 0, and a
quiet line gives 0 once a 200 ms window has elapsed, both over a buffer full
of stale durations. -/
theorem captureRfHashBlocking_no_signal_witness :
    captureRfHashBlocking backHeldEnv 5000 (fun _ => 700) 1 = some 0 ∧
    captureRfHashBlocking quietEnv 200 (fun _ => 700) 200 = some 0 :=
  ⟨(captureRfHashBlocking_no_signal backHeldEnv 5000 (fun _ => 700)).1 (fun _ => rfl) 1
      (le_refl 1),
    (captureRfHashBlocking_no_signal quietEnv 200 (fun _ => 700)).2 200 (by decide)
      (by
        intro i j hij hj
        simp only [quietEnv, sub32]
        omega)
      (by
        intro j _ h
        have h2 : HIGH = LOW := h.2
        exact absurd h2 (by decide))
      (by decide) 200 (le_refl 200)⟩

/-! ## RF fingerprint: threshold and buckets -/

theorem durSum_foldl (dur : List Nat) :
    ∀ acc, acc + dur.sum < 2 ^ 32 →
      dur.foldl (fun acc d => (acc + d) % 2 ^ 32) acc = acc + dur.sum := by
  induction dur with
  | nil => intro acc _; simp
  | cons d ds ih =>
    intro acc h
    simp only [List.sum_cons] at h
    simp only [List.foldl_cons, List.sum_cons]
    rw [Nat.mod_eq_of_lt (by omega), ih (acc + d) (by omega)]
    omega

theorem sum_le_of_bounded (dur : List Nat) (hd : ∀ d ∈ dur, d ≤ 65535) :
    dur.sum ≤ dur.length * 65535 := by
  induction dur with
  | nil => simp
  | cons d ds ih =>
    have h1 := hd d (List.mem_cons_self d ds)
    have h2 := ih (fun x hx => hd x (List.mem_cons_of_mem d hx))
    simp only [List.sum_cons, List.length_cons]
    omega

/-- For a recorded sequence (at most 128 durations of at most 65535 each) the
sum does not wrap. -/
theorem durSum_eq_sum (dur : List Nat) (hlen : dur.length ≤ 128)
    (hd : ∀ d ∈ dur, d ≤ 65535) : durSum dur = dur.sum := by
  have hs := sum_le_of_bounded dur hd
  unfold durSum
  rw [durSum_foldl dur 0 (by omega)]
  omega

theorem rfThreshold_eq_max (dur : List Nat) (hlen : dur.length ≤ 128)
    (hd : ∀ d ∈ dur, d ≤ 65535) :
    rfThreshold dur = max (dur.sum / dur.length) 400 := by
  have hs := sum_le_of_bounded dur hd
  have hq : dur.sum / dur.length ≤ 65535 := by
    rcases Nat.eq_zero_or_pos dur.length with h0 | hpos
    · rw [h0, Nat.div_zero]; omega
    · exact Nat.div_le_of_le_mul hs
  unfold rfThreshold
  rw [durSum_eq_sum dur hlen hd]
  simp only []
  rw [Nat.mod_eq_of_lt (by omega)]
  split_ifs <;> omega

/-- C12, counterexample.  Eight durations of 400 have threshold `T = 400`; the
duration 400 equals `T`, so it is not below `T` and satisfies `T <= d <= 2T`,
yet its bucket is 0 (short), not 1 (medium). -/
theorem bucket_at_threshold_counterexample :
    rfThreshold [400, 400, 400, 400, 400, 400, 400, 400] = 400 ∧
    ¬ (400 < rfThreshold [400, 400, 400, 400, 400, 400, 400, 400]) ∧
    rfBucket (rfThreshold [400, 400, 400, 400, 400, 400, 400, 400]) 400 = 0 ∧
    (rfThreshold [400, 400, 400, 400, 400, 400, 400, 400] ≤ 400 ∧
      400 ≤ 2 * rfThreshold [400, 400, 400, 400, 400, 400, 400, 400]) ∧
    rfBucket (rfThreshold [400, 400, 400, 400, 400, 400, 400, 400]) 400 ≠ 1 := by
  decide

/-- C12, amended.  For every recorded sequence (at most 128 durations, each at
most 65535) the threshold of `captureRfHashBlocking` is
`T = max(sum / count, 400)`, and a duration `d` is bucketed short (0) iff
`d <= T`, medium (1) iff `T < d <= 2T`, long (2) iff `d > 2T`. -/
theorem rfThreshold_rfBucket (dur : List Nat) (hlen : dur.length ≤ 128)
    (hd : ∀ d ∈ dur, d ≤ 65535) :
    rfThreshold dur = max (dur.sum / dur.length) 400 ∧
    ∀ d : Nat,
      (rfBucket (rfThreshold dur) d = 0 ↔ d ≤ rfThreshold dur) ∧
      (rfBucket (rfThreshold dur) d = 1 ↔ rfThreshold dur < d ∧ d ≤ 2 * rfThreshold dur) ∧
      (rfBucket (rfThreshold dur) d = 2 ↔ 2 * rfThreshold dur < d) := by
  refine ⟨rfThreshold_eq_max dur hlen hd, fun d => ?_⟩
  unfold rfBucket
  refine ⟨?_, ?_, ?_⟩ <;> split_ifs <;> constructor <;> intro h <;> first | omega | exact h.elim

/-- C12, witness: durations 300 and 900 four times each have mean 600. -/
theorem rfThreshold_rfBucket_witness :
    [300, 900, 300, 900, 300, 900, 300, 900].length ≤ 128 ∧
    rfThreshold [300, 900, 300, 900, 300, 900, 300, 900]
      = max ([300, 900, 300, 900, 300, 900, 300, 900].sum
          / [300, 900, 300, 900, 300, 900, 300, 900].length) 400 :=
  ⟨by decide,
    (rfThreshold_rfBucket [300, 900, 300, 900, 300, 900, 300, 900] (by decide)
      (by decide)).1⟩

/-! ## The mixing step -/

theorem fnv1a_lt (h x : Nat) : fnv1a h x < 2 ^ 32 :=
  Nat.mod_lt _ (by norm_num)

theorem mul_prime_inj (a b : Nat) (ha : a < 2 ^ 32) (hb : b < 2 ^ 32)
    (h : a * 16777619 % 2 ^ 32 = b * 16777619 % 2 ^ 32) : a = b := by
  have hmod : a ≡ b [MOD 2 ^ 32] :=
    Nat.ModEq.cancel_right_of_coprime (by norm_num) h
  unfold Nat.ModEq at hmod
  rwa [Nat.mod_eq_of_lt ha, Nat.mod_eq_of_lt hb] at hmod

theorem fnv1a_inj_left (x h h' : Nat) (hx : x < 2 ^ 32) (hh : h < 2 ^ 32) (hh' : h' < 2 ^ 32)
    (heq : fnv1a h x = fnv1a h' x) : h = h' := by
  unfold fnv1a at heq
  have := mul_prime_inj (h ^^^ x) (h' ^^^ x) (Nat.xor_lt_two_pow hh hx)
    (Nat.xor_lt_two_pow hh' hx) heq
  exact Nat.xor_left_injective this

theorem fnv1a_inj_right (h x x' : Nat) (hh : h < 2 ^ 32) (hx : x < 2 ^ 32) (hx' : x' < 2 ^ 32)
    (heq : fnv1a h x = fnv1a h x') : x = x' := by
  unfold fnv1a at heq
  have := mul_prime_inj (h ^^^ x) (h ^^^ x') (Nat.xor_lt_two_pow hh hx)
    (Nat.xor_lt_two_pow hh hx') heq
  exact Nat.xor_right_injective this

theorem fnv1a_surj_left (x y : Nat) (hx : x < 2 ^ 32) (hy : y < 2 ^ 32) :
    ∃ h, h < 2 ^ 32 ∧ fnv1a h x = y := by
  have hlt : y * 899433627 % 2 ^ 32 < 2 ^ 32 := Nat.mod_lt _ (by norm_num)
  refine ⟨(y * 899433627 % 2 ^ 32) ^^^ x, Nat.xor_lt_two_pow hlt hx, ?_⟩
  unfold fnv1a
  rw [Nat.xor_cancel_right]
  omega

theorem rfRawHash_eq_hashBuckets (dur : List Nat) :
    rfRawHash dur = hashBuckets (bucketsOf dur) := by
  simp [rfRawHash, hashBuckets, bucketsOf, List.foldl_map]

theorem fold_lt (q : List Nat) : ∀ h, h < 2 ^ 32 →
    q.foldl (fun h b => fnv1a h (b + 0x9E)) h < 2 ^ 32 := by
  induction q with
  | nil => intro h hh; simpa using hh
  | cons b q ih => intro h _; exact ih _ (fnv1a_lt _ _)

theorem fold_ne (q : List Nat) (hq : ∀ b ∈ q, b ≤ 2) : ∀ h h', h < 2 ^ 32 → h' < 2 ^ 32 →
    h ≠ h' →
    q.foldl (fun h b => fnv1a h (b + 0x9E)) h ≠ q.foldl (fun h b => fnv1a h (b + 0x9E)) h' := by
  induction q with
  | nil => intro h h' _ _ hne; simpa using hne
  | cons b q ih =>
    intro h h' hh hh' hne
    have hb : b ≤ 2 := hq b (List.mem_cons_self b q)
    simp only [List.foldl_cons]
    apply ih (fun c hc => hq c (List.mem_cons_of_mem b hc)) _ _ (fnv1a_lt _ _) (fnv1a_lt _ _)
    intro heq
    exact hne (fnv1a_inj_left (b + 0x9E) h h' (by omega) hh hh' heq)

theorem hashBuckets_ne (p q : List Nat) (a a' : Nat) (ha : a ≤ 2) (ha' : a' ≤ 2)
    (hq : ∀ b ∈ q, b ≤ 2) (hlen : p.length + q.length + 1 < 2 ^ 32) (hne : a ≠ a') :
    hashBuckets (p ++ a :: q) ≠ hashBuckets (p ++ a' :: q) := by
  unfold hashBuckets
  have hbasis : p.foldl (fun h b => fnv1a h (b + 0x9E)) 2166136261 < 2 ^ 32 :=
    fold_lt p _ (by norm_num)
  have hl : (p ++ a :: q).length = (p ++ a' :: q).length := by simp
  have hx : (p ++ a' :: q).length ^^^ 0xA5A5A5A5 < 2 ^ 32 :=
    Nat.xor_lt_two_pow (by simp; omega) (by norm_num)
  rw [hl]
  simp only [List.foldl_append, List.foldl_cons]
  intro heq
  have h1 := fnv1a_inj_left _ _ _ hx (fold_lt q _ (fnv1a_lt _ _)) (fold_lt q _ (fnv1a_lt _ _)) heq
  refine fold_ne q hq _ _ (fnv1a_lt _ _) (fnv1a_lt _ _) ?_ h1
  intro h2
  have := fnv1a_inj_right _ _ _ hbasis (by omega) (by omega) h2
  omega

theorem rfBucket_le (thr d : Nat) : rfBucket thr d ≤ 2 := by
  unfold rfBucket; split_ifs <;> omega

theorem rfHashStage_of_raw (dur : List Nat) (h8 : 8 ≤ dur.length) :
    rfHashStage dur = if rfRawHash dur ≠ 0 then rfRawHash dur else 0xFFFFFFFF := by
  have : ¬ dur.length < 8 := by omega
  simp [rfHashStage, this]

/-- C15.  For every 32-bit `x` the mixing step `h ↦ fnv1a(h, x)` is a bijection
of the 32-bit values, and for every 32-bit `h` the map `x ↦ fnv1a(h, x)` is
injective on them.  Hence two bucket sequences that differ in exactly one
position have different hashes; for recorded sequences whose bucket sequences
differ in exactly one position the raw hashes differ, and the fingerprints can
be equal only if one raw hash is 0 and the other `0xFFFFFFFF`. -/
theorem fnv1a_mixing_separates :
    (∀ x, x < 2 ^ 32 →
      Set.BijOn (fun h => fnv1a h x) (Set.Iio (2 ^ 32)) (Set.Iio (2 ^ 32))) ∧
    (∀ h, h < 2 ^ 32 → Set.InjOn (fun x => fnv1a h x) (Set.Iio (2 ^ 32))) ∧
    (∀ (p q : List Nat) (a a' : Nat), a ≤ 2 → a' ≤ 2 → (∀ b ∈ q, b ≤ 2) →
      p.length + q.length + 1 < 2 ^ 32 → a ≠ a' →
      hashBuckets (p ++ a :: q) ≠ hashBuckets (p ++ a' :: q)) ∧
    (∀ (dur dur' p q : List Nat) (a a' : Nat), dur.length < 2 ^ 32 →
      bucketsOf dur = p ++ a :: q → bucketsOf dur' = p ++ a' :: q → a ≠ a' →
      rfRawHash dur ≠ rfRawHash dur' ∧
      (8 ≤ dur.length → rfHashStage dur = rfHashStage dur' →
        (rfRawHash dur = 0 ∧ rfRawHash dur' = 0xFFFFFFFF) ∨
        (rfRawHash dur = 0xFFFFFFFF ∧ rfRawHash dur' = 0))) := by
  refine ⟨?_, ?_, ?_, ?_⟩
  · intro x hx
    refine ⟨fun h _ => fnv1a_lt h x, ?_, ?_⟩
    · intro h hh h' hh' heq
      exact fnv1a_inj_left x h h' hx hh hh' heq
    · intro y hy
      obtain ⟨h, hh, he⟩ := fnv1a_surj_left x y hx hy
      exact ⟨h, hh, he⟩
  · intro h hh x hx x' hx' heq
    exact fnv1a_inj_right h x x' hh hx hx' heq
  · intro p q a a' ha ha' hq hlen hne
    exact hashBuckets_ne p q a a' ha ha' hq hlen hne
  · intro dur dur' p q a a' hlen hb hb' hne
    have hl : dur.length = p.length + q.length + 1 := by
      have := congrArg List.length hb
      simpa [bucketsOf, Nat.add_assoc] using this
    have hl' : dur'.length = p.length + q.length + 1 := by
      have := congrArg List.length hb'
      simpa [bucketsOf, Nat.add_assoc] using this
    have hmem : ∀ b ∈ bucketsOf dur, b ≤ 2 := by
      intro b hbm
      simp only [bucketsOf, List.mem_map] at hbm
      obtain ⟨d, -, rfl⟩ := hbm
      exact rfBucket_le _ _
    have hmem' : ∀ b ∈ bucketsOf dur', b ≤ 2 := by
      intro b hbm
      simp only [bucketsOf, List.mem_map] at hbm
      obtain ⟨d, -, rfl⟩ := hbm
      exact rfBucket_le _ _
    have ha : a ≤ 2 := hmem a (by rw [hb]; simp)
    have ha' : a' ≤ 2 := hmem' a' (by rw [hb']; simp)
    have hq : ∀ b ∈ q, b ≤ 2 := fun b hbq => hmem b (by rw [hb]; simp [hbq])
    have hraw : rfRawHash dur ≠ rfRawHash dur' := by
      rw [rfRawHash_eq_hashBuckets, rfRawHash_eq_hashBuckets, hb, hb']
      exact hashBuckets_ne p q a a' ha ha' hq (by omega) hne
    refine ⟨hraw, ?_⟩
    intro h8 hfin
    rw [rfHashStage_of_raw dur h8, rfHashStage_of_raw dur' (by omega)] at hfin
    by_cases h0 : rfRawHash dur = 0
    · by_cases h0' : rfRawHash dur' = 0
      · exact absurd (h0.trans h0'.symm) hraw
      · left
        simp only [h0, h0', ne_eq, not_true_eq_false, not_false_eq_true, if_true, if_false] at hfin
        exact ⟨h0, hfin.symm⟩
    · by_cases h0' : rfRawHash dur' = 0
      · right
        simp only [h0, h0', ne_eq, not_true_eq_false, not_false_eq_true, if_true, if_false] at hfin
        exact ⟨hfin, h0'⟩
      · simp only [h0, h0', ne_eq, not_false_eq_true, if_true] at hfin
        exact absurd hfin hraw

/-- C15, instance: eight durations of 400 and the same with the last one 401
differ in the last bucket only and have different raw hashes. -/
theorem fnv1a_mixing_separates_witness :
    bucketsOf [400, 400, 400, 400, 400, 400, 400, 400] = [0, 0, 0, 0, 0, 0, 0] ++ 0 :: [] ∧
    bucketsOf [400, 400, 400, 400, 400, 400, 400, 401] = [0, 0, 0, 0, 0, 0, 0] ++ 1 :: [] ∧
    rfRawHash [400, 400, 400, 400, 400, 400, 400, 400]
      ≠ rfRawHash [400, 400, 400, 400, 400, 400, 400, 401] :=
  ⟨by decide, by decide,
    (fnv1a_mixing_separates.2.2.2 [400, 400, 400, 400, 400, 400, 400, 400]
      [400, 400, 400, 400, 400, 400, 400, 401] [0, 0, 0, 0, 0, 0, 0] [] 0 1 (by decide)
      (by decide) (by decide) (by decide)).1⟩

/-! ## RF fingerprint: jitter and uniform captures -/

theorem rfHashStage_of_buckets (a b : List Nat) (h : bucketsOf a = bucketsOf b) :
    rfHashStage a = rfHashStage b := by
  have hl : a.length = b.length := by
    have := congrArg List.length h
    simpa [bucketsOf] using this
  unfold rfHashStage
  rw [rfRawHash_eq_hashBuckets, rfRawHash_eq_hashBuckets, h, hl]

theorem jittered_sum (a : List Nat) : ∀ b, Jittered a b →
    9 * a.sum ≤ 10 * b.sum ∧ 10 * b.sum ≤ 11 * a.sum := by
  induction a with
  | nil =>
    intro b hj
    have : b = [] := List.length_eq_zero.mp hj.1.symm
    subst this
    simp
  | cons x xs ih =>
    intro b hj
    cases b with
    | nil => exact absurd hj.1 (by simp)
    | cons y ys =>
      have hxy : Within10 x y := hj.2 (x, y) (by simp)
      have hrest : Jittered xs ys :=
        ⟨by simpa using hj.1, fun p hp => hj.2 p (by simp [hp])⟩
      obtain ⟨h1, h2⟩ := ih ys hrest
      unfold Within10 at hxy
      simp only [List.sum_cons]
      omega

theorem avg_bounds (S S' n : Nat) (hn : 0 < n) (h1 : 9 * S ≤ 10 * S') (h2 : 10 * S' ≤ 11 * S) :
    10 * (S' / n) ≤ 11 * (S / n) + 10 ∧ 9 * (S / n) ≤ 10 * (S' / n) + 9 := by
  have e1 : S' / n * n ≤ S' := Nat.div_mul_le_self S' n
  have e2 : S / n * n ≤ S := Nat.div_mul_le_self S n
  have e3 : S < n * (S / n + 1) := Nat.lt_mul_div_succ S hn
  have e4 : S' < n * (S' / n + 1) := Nat.lt_mul_div_succ S' hn
  constructor
  · by_contra hc
    have hc' : 11 * (S / n) + 11 ≤ 10 * (S' / n) := by omega
    have := Nat.mul_le_mul_right n hc'
    nlinarith
  · by_contra hc
    have hc' : 10 * (S' / n) + 10 ≤ 9 * (S / n) := by omega
    have := Nat.mul_le_mul_right n hc'
    nlinarith

theorem bucket_stable (T T' x y : Nat) (hA : 10 * T' ≤ 11 * T + 10) (hB : 9 * T ≤ 10 * T' + 9)
    (hxy : Within10 x y) (hm : JitterMargin T x) : rfBucket T x = rfBucket T' y := by
  unfold Within10 at hxy
  unfold JitterMargin at hm
  unfold rfBucket
  split_ifs <;> omega

theorem buckets_stable (T T' : Nat) (hA : 10 * T' ≤ 11 * T + 10) (hB : 9 * T ≤ 10 * T' + 9)
    (a : List Nat) : ∀ b, Jittered a b → (∀ d ∈ a, JitterMargin T d) →
      a.map (rfBucket T) = b.map (rfBucket T') := by
  induction a with
  | nil =>
    intro b hj _
    have : b = [] := List.length_eq_zero.mp hj.1.symm
    subst this
    rfl
  | cons x xs ih =>
    intro b hj hm
    cases b with
    | nil => exact absurd hj.1 (by simp)
    | cons y ys =>
      have hxy : Within10 x y := hj.2 (x, y) (by simp)
      have hrest : Jittered xs ys :=
        ⟨by simpa using hj.1, fun p hp => hj.2 p (by simp [hp])⟩
      simp only [List.map_cons]
      rw [bucket_stable T T' x y hA hB hxy (hm x (List.mem_cons_self x xs)),
        ih ys hrest (fun d hd => hm d (List.mem_cons_of_mem x hd))]

/-- C13, counterexample.  Eight durations of 400, and the same with the last
one 401 (0.25% longer), have different fingerprints. -/
theorem jitter_changes_fingerprint_counterexample :
    Jittered [400, 400, 400, 400, 400, 400, 400, 400] [400, 400, 400, 400, 400, 400, 400, 401] ∧
    rfHashStage [400, 400, 400, 400, 400, 400, 400, 400]
      ≠ rfHashStage [400, 400, 400, 400, 400, 400, 400, 401] := by
  constructor
  · unfold Jittered Within10; decide
  · decide

/-- C13, amended.  For every recorded sequence `a` of length `n`
(`8 <= n <= 128`, durations at most 65535) and every second recorded sequence
`b` of the same length in which each duration is within ±10% of the
corresponding duration of `a`: the two fingerprints are equal whenever the two
bucket sequences are equal, and the bucket sequences are equal whenever every
duration of `a` keeps a margin from the thresholds `T` and `2T` of `a`. -/
theorem rfHashStage_jitter_stable (a b : List Nat) (h8 : 8 ≤ a.length)
    (hlen : a.length ≤ 128) (ha : ∀ d ∈ a, d ≤ 65535) (hb : ∀ d ∈ b, d ≤ 65535)
    (hj : Jittered a b) :
    (bucketsOf a = bucketsOf b → rfHashStage a = rfHashStage b) ∧
    ((∀ d ∈ a, JitterMargin (rfThreshold a) d) →
      bucketsOf a = bucketsOf b ∧ rfHashStage a = rfHashStage b) := by
  refine ⟨rfHashStage_of_buckets a b, fun hm => ?_⟩
  have hl : a.length = b.length := hj.1
  obtain ⟨s1, s2⟩ := jittered_sum a b hj
  obtain ⟨hA', hB'⟩ := avg_bounds a.sum b.sum a.length (by omega) s1 s2
  have hT := rfThreshold_eq_max a hlen ha
  have hT' := rfThreshold_eq_max b (by omega) hb
  rw [← hl] at hT'
  have hA : 10 * rfThreshold b ≤ 11 * rfThreshold a + 10 := by rw [hT, hT']; omega
  have hB : 9 * rfThreshold a ≤ 10 * rfThreshold b + 9 := by rw [hT, hT']; omega
  have hbk : bucketsOf a = bucketsOf b :=
    buckets_stable (rfThreshold a) (rfThreshold b) hA hB a b hj hm
  exact ⟨hbk, rfHashStage_of_buckets a b hbk⟩

/-- C13, witness: durations 300 and 900 alternate, each jittered by 10%. -/
theorem rfHashStage_jitter_stable_witness :
    Jittered [300, 900, 300, 900, 300, 900, 300, 900] [330, 810, 330, 810, 270, 990, 270, 990] ∧
    rfHashStage [300, 900, 300, 900, 300, 900, 300, 900]
      = rfHashStage [330, 810, 330, 810, 270, 990, 270, 990] :=
  ⟨by unfold Jittered Within10; decide,
    ((rfHashStage_jitter_stable [300, 900, 300, 900, 300, 900, 300, 900]
      [330, 810, 330, 810, 270, 990, 270, 990] (by decide) (by decide) (by decide) (by decide)
      (by unfold Jittered Within10; decide)).2
      (by unfold JitterMargin; decide)).2⟩

theorem rfThreshold_replicate (n d : Nat) (hn : 0 < n) (hn' : n ≤ 128) (hd : d ≤ 65535) :
    rfThreshold (List.replicate n d) = max d 400 := by
  rw [rfThreshold_eq_max _ (by simpa using hn')
    (fun x hx => by rw [List.eq_of_mem_replicate hx]; exact hd)]
  simp only [List.sum_replicate, List.length_replicate, smul_eq_mul]
  rw [Nat.mul_div_cancel_left d hn]

theorem bucketsOf_replicate (n d : Nat) (hn : 0 < n) (hn' : n ≤ 128) (hd : d ≤ 65535) :
    bucketsOf (List.replicate n d) = List.replicate n 0 := by
  unfold bucketsOf
  rw [rfThreshold_replicate n d hn hn' hd, List.map_replicate]
  congr 1
  unfold rfBucket
  split_ifs <;> omega

theorem rfHashStage_ne_zero (dur : List Nat) (h8 : 8 ≤ dur.length) : rfHashStage dur ≠ 0 := by
  rw [rfHashStage_of_raw dur h8]
  split_ifs with h
  · exact h
  · norm_num

/-- C14, counterexample.  Eight durations of 300 (all short) and eight of 1000
(all long, more than twice 300) have the same fingerprint. -/
theorem uniform_captures_collide_counterexample :
    2 * 300 < 1000 ∧
    rfHashStage [300, 300, 300, 300, 300, 300, 300, 300]
      = rfHashStage [1000, 1000, 1000, 1000, 1000, 1000, 1000, 1000] := by
  decide

/-- C14, amended.  For every count `n` (`8 <= n <= 128`) and all pulse widths
`s` and `l` (at most 65535; in particular `l` more than twice `s`), a capture
whose `n` durations are all `s` and a capture whose `n` durations are all `l`
both have the all-short bucket sequence and yield the same fingerprint;
neither fingerprint is 0. -/
theorem uniform_captures_same_fingerprint (n s l : Nat) (h8 : 8 ≤ n) (hn : n ≤ 128)
    (hs : s ≤ 65535) (hl : l ≤ 65535) :
    bucketsOf (List.replicate n s) = List.replicate n 0 ∧
    bucketsOf (List.replicate n l) = List.replicate n 0 ∧
    rfHashStage (List.replicate n s) = rfHashStage (List.replicate n l) ∧
    rfHashStage (List.replicate n s) ≠ 0 ∧
    rfHashStage (List.replicate n l) ≠ 0 := by
  have b1 := bucketsOf_replicate n s (by omega) hn hs
  have b2 := bucketsOf_replicate n l (by omega) hn hl
  refine ⟨b1, b2, rfHashStage_of_buckets _ _ (b1.trans b2.symm), ?_, ?_⟩
  · exact rfHashStage_ne_zero _ (by simpa using h8)
  · exact rfHashStage_ne_zero _ (by simpa using h8)

/-- C14, witness: 20 durations of 350 against 20 durations of 1200. -/
theorem uniform_captures_same_fingerprint_witness :
    2 * 350 < 1200 ∧
    rfHashStage (List.replicate 20 350) = rfHashStage (List.replicate 20 1200) ∧
    rfHashStage (List.replicate 20 350) ≠ 0 :=
  have h := uniform_captures_same_fingerprint 20 350 1200 (by decide) (by decide) (by decide)
    (by decide)
  ⟨by decide, h.2.2.1, h.2.2.2.1⟩

/-! ## Current sensor: samples stay below the fast-short level -/

theorem roundHalfEven_le (q : ℚ) : ((roundHalfEven q : ℤ) : ℚ) ≤ q + 1 / 2 := by
  have hf : ((⌊q⌋ : ℤ) : ℚ) ≤ q := Int.floor_le q
  unfold roundHalfEven
  simp only []
  split_ifs with h1 h2 h3
  · linarith
  · push_cast; linarith
  · linarith
  · push_cast; linarith

theorem roundF32_le (x : ℚ) (hx : x < 2 ^ 6) : roundF32 x ≤ max x 0 + 1 / 2 ^ 19 := by
  unfold roundF32
  split_ifs with h0
  · have : (0 : ℚ) ≤ max x 0 := le_max_right _ _
    have : (0 : ℚ) < 1 / 2 ^ 19 := by norm_num
    linarith
  · simp only []
    have habs : 0 < |x| := abs_pos.mpr h0
    have hlt : |x| < (2 : ℚ) ^ (6 : ℤ) ∨ x < 0 := by
      rcases lt_or_gt_of_ne h0 with h | h
      · exact Or.inr h
      · left
        rw [abs_of_pos h]
        exact_mod_cast hx
    set e : ℤ := max (Int.log 2 |x|) (-126) with he
    have hulp : (0 : ℚ) < (2 : ℚ) ^ (e - 23) := zpow_pos (by norm_num) _
    have hr := roundHalfEven_le (x / (2 : ℚ) ^ (e - 23))
    have hmul : (roundHalfEven (x / (2 : ℚ) ^ (e - 23)) : ℚ) * (2 : ℚ) ^ (e - 23)
        ≤ x + (2 : ℚ) ^ (e - 23) / 2 := by
      have := mul_le_mul_of_nonneg_right hr (le_of_lt hulp)
      rw [add_mul, div_mul_cancel₀ _ (ne_of_gt hulp)] at this
      linarith
    rcases lt_or_gt_of_ne h0 with hneg | hpos
    · -- a negative value is rounded to a value that is not positive
      have hq : x / (2 : ℚ) ^ (e - 23) < 0 := div_neg_of_neg_of_pos hneg hulp
      have hz : roundHalfEven (x / (2 : ℚ) ^ (e - 23)) ≤ 0 := by
        by_contra hc
        have h1 : (1 : ℤ) ≤ roundHalfEven (x / (2 : ℚ) ^ (e - 23)) := by omega
        have h2 : (1 : ℚ) ≤ (roundHalfEven (x / (2 : ℚ) ^ (e - 23)) : ℚ) := by exact_mod_cast h1
        linarith
      have hz' : (roundHalfEven (x / (2 : ℚ) ^ (e - 23)) : ℚ) ≤ 0 := by exact_mod_cast hz
      have : (roundHalfEven (x / (2 : ℚ) ^ (e - 23)) : ℚ) * (2 : ℚ) ^ (e - 23) ≤ 0 :=
        mul_nonpos_of_nonpos_of_nonneg hz' (le_of_lt hulp)
      have : (0 : ℚ) ≤ max x 0 := le_max_right _ _
      have : (0 : ℚ) < 1 / 2 ^ 19 := by norm_num
      linarith
    · have hx6 : |x| < ((2 : ℕ) : ℚ) ^ (6 : ℤ) := by
        rw [abs_of_pos hpos]
        exact_mod_cast hx
      have hlog : Int.log 2 |x| < 6 := (Int.lt_zpow_iff_log_lt (by norm_num) habs).mp hx6
      have he5 : e ≤ 5 := by
        rw [he]
        exact max_le (by omega) (by norm_num)
      have hu : (2 : ℚ) ^ (e - 23) ≤ (2 : ℚ) ^ (-18 : ℤ) :=
        zpow_le_zpow_right₀ (by norm_num) (by omega)
      have h18 : (2 : ℚ) ^ (-18 : ℤ) = 1 / 262144 := by
        rw [zpow_neg]
        norm_num
      rw [h18] at hu
      have h19 : (1 : ℚ) / 2 ^ 19 = 1 / 524288 := by norm_num
      have : x ≤ max x 0 := le_max_left _ _
      rw [h19]
      linarith

theorem currentA_le (r : Int) (hhi : r ≤ 32767) : 1000 * currentA r < 32768 := by
  have hc : (0 : ℚ) < CURRENT_LSB_A := by norm_num [CURRENT_LSB_A, Rat.mkRat_eq_div]
  have hr : (r : ℚ) ≤ 32767 := by exact_mod_cast hhi
  have hx : (r : ℚ) * CURRENT_LSB_A ≤ 32767 * CURRENT_LSB_A :=
    mul_le_mul_of_nonneg_right hr (le_of_lt hc)
  have hv : (32767 : ℚ) * CURRENT_LSB_A < 32767002 / 1000000 := by
    norm_num [CURRENT_LSB_A, Rat.mkRat_eq_div]
  have hlt : (r : ℚ) * CURRENT_LSB_A < 2 ^ 6 := by
    have : (32767002 : ℚ) / 1000000 < 2 ^ 6 := by norm_num
    linarith
  have hround := roundF32_le ((r : ℚ) * CURRENT_LSB_A) hlt
  have hmax : max ((r : ℚ) * CURRENT_LSB_A) 0 ≤ 32767002 / 1000000 :=
    max_le (by linarith) (by norm_num)
  have h19 : (1 : ℚ) / 2 ^ 19 = 1 / 524288 := by norm_num
  rw [h19] at hround
  unfold currentA
  linarith

/-- C16.  For every signed 16-bit value `r` of the current register the sample
`r * CURRENT_LSB_A`, computed in binary32, is below 32.768 A and so strictly
below `FAST_SHORT_A = 40 A`.  Therefore, when `pulseTestAndEngage` samples
such a value, the comparison `ia >= FAST_SHORT_A` is false and the Short
branch is taken (the popup is invoked with `FAULT_SHORT`) if and only if the
over-current flag is asserted. -/
theorem currentA_below_fast_short (r : Int) (_hlo : -32768 ≤ r) (hhi : r ≤ 32767) :
    1000 * currentA r < 32768 ∧
    currentA r < FAST_SHORT_A ∧
    ¬ (FAST_SHORT_A ≤ currentA r) ∧
    ∀ (ask : Confirm) (oc : Bool) (rly : RelayId) (s : State),
      (popupsOf (eventsSince s (pulseTestAndEngage ask (currentA r) oc rly s).2)
        = [FaultType.FAULT_SHORT] ↔ oc = true) := by
  have h1 := currentA_le r hhi
  have h2 : currentA r < FAST_SHORT_A := by
    unfold FAST_SHORT_A
    linarith
  refine ⟨h1, h2, not_le.mpr h2, ?_⟩
  intro ask oc rly s
  rw [pulse_popups]
  have hn : ¬ FAST_SHORT_A ≤ currentA r := not_le.mpr h2
  cases oc
  · simp only [hn, false_or, Bool.false_eq_true, if_false]
    split_ifs <;> simp
  · simp

/-- C16, witness: the largest register value, 32767. -/
theorem currentA_below_fast_short_witness :
    (-32768 : Int) ≤ 32767 ∧ (32767 : Int) ≤ 32767 ∧
    currentA 32767 < FAST_SHORT_A ∧
    (popupsOf (eventsSince initState
        (pulseTestAndEngage askCancel (currentA 32767) false R_LEFT initState).2)
      = [FaultType.FAULT_SHORT] ↔ false = true) :=
  have h := currentA_below_fast_short 32767 (by decide) (by decide)
  ⟨by decide, by decide, h.2.1, h.2.2.2 askCancel false R_LEFT initState⟩

end TLTB
